import Mathlib

/-!
Shallow embedding of the Vigil event-database core (crates/vigil-core) and
verification of the frozen claims about it.

Modelling conventions:
* Rust machine integers (`u8`, `u16`, `u32`, `u64`) are `Nat` with explicit
  `% 2^w` where wrap-around matters; byte buffers (`Bytes`/`BytesMut`) are
  `List Nat` whose elements are below 256 by construction.
* IEEE-754 doubles (`OrderedFloat<f64>`) are modelled as `Rat`.  None of the
  claims settled here depends on NaN, infinities or rounding of doubles;
  the transcendental kernels (`cos`, `sqrt`, ...) and external parsers
  (chrono, serde_json) that the code merely calls are passed in as explicit
  function parameters, mirroring their status as external dependencies.
* Fallible Rust code returning `Result<A, E>` becomes `Except E A`;
  a Rust panic (out-of-bounds indexing) is modelled by `Option`.
* `BTreeMap<String, V>` is a key-sorted association list maintained by a
  sorted-insert function; `HashMap` used only for group accumulation is an
  insertion-ordered association list (iteration order of a Rust `HashMap`
  is unspecified, so theorems about grouped output only use membership or
  lengths, never positions).
-/

set_option maxRecDepth 8000

namespace Vigil

/-- `EvalError` from eval.rs: the single `Runtime(message)` variant. -/
inductive EvalError where
  | runtime (msg : String)
deriving DecidableEq, Repr

/-- `Order` from the eventql AST: `Asc | Desc`. -/
inductive Order where
  | asc
  | desc
deriving DecidableEq, Repr

/-- `Limit` from the eventql AST: `Top(n) | Skip(n)`. -/
inductive Limit where
  | top (n : Nat)
  | skip (n : Nat)
deriving DecidableEq, Repr

/-- Binary/unary operators of the eventql AST used by the interpreter. -/
inductive Operator where
  | add | sub | mul | div
  | eq | neq | lt | lte | gt | gte
  | and | or | xor
  | contains
  | as
  | not
deriving DecidableEq, Repr

/-- `QueryValue` from values.rs.  `Record` is a `BTreeMap<String, QueryValue>`
modelled as a key-sorted association list; `Number` is `OrderedFloat<f64>`
modelled as `Rat`; the chrono instants are opaque integers. -/
inductive QueryValue where
  | null
  | str (s : String)
  | num (n : Rat)
  | bool (b : Bool)
  | record (fields : List (String × QueryValue))
  | array (elems : List QueryValue)
  | dateTime (t : Int)
  | date (d : Int)
  | time (t : Int)
deriving Repr

/-- `QueryValue::as_bool` from eval.rs. -/
def asBool : QueryValue → Except EvalError Bool
  | .bool b => .ok b
  | _ => .error (.runtime "expected a boolean but got something else")

/-- Surface rendering of an operator, standing in for the external
`Display` impl used in the interpreter's error messages. -/
def opName : Operator → String
  | .add => "+" | .sub => "-" | .mul => "*" | .div => "/"
  | .eq => "=" | .neq => "!=" | .lt => "<" | .lte => "<="
  | .gt => ">" | .gte => ">=" | .and => "AND" | .or => "OR"
  | .xor => "XOR" | .contains => "CONTAINS" | .as => "AS" | .not => "!"

mutual

/-- `Interpreter::eval_binary` from eval.rs specialised to `Operator::Eq`
(the only operator the function ever recurses with).  Arm order follows the
source; in particular `(Null, Null)` returns `Ok(Null)` before any operator
dispatch, and the record arm keeps the source's condition
`a_k != b_k || eval_binary(Eq, a_v, b_v)?.as_bool()?` exactly as written. -/
def evalEqVal : QueryValue → QueryValue → Except EvalError QueryValue
  | .null, .null => .ok .null
  | .str a, .str b => .ok (.bool (a == b))
  | .num a, .num b => .ok (.bool (a == b))
  | .bool a, .bool b => .ok (.bool (a == b))
  | .record a, .record b =>
      if a.length != b.length then .ok (.bool false) else evalRecEqLoop a b
  | .array a, .array b =>
      if a.length != b.length then .ok (.bool false) else evalArrEqLoop a b
  | .dateTime a, .dateTime b => .ok (.bool (a == b))
  | .date a, .date b => .ok (.bool (a == b))
  | .time a, .time b => .ok (.bool (a == b))
  | _, _ => .error (.runtime ("unsupported binary operation " ++ opName .eq ++ " for given types"))

/-- The record-equality loop of `eval_binary`'s `(Record, Record)` `Eq` arm:
`for ((a_k, a_v), (b_k, b_v)) in a.iter().zip(b.iter())` with the source's
(inverted) early exit `if a_k != b_k || eval(Eq, a_v, b_v)?.as_bool()?
{ return Ok(Bool(false)) }`.  `||` short-circuits, so the value comparison
only runs when the keys agree. -/
def evalRecEqLoop :
    List (String × QueryValue) → List (String × QueryValue) → Except EvalError QueryValue
  | (ak, av) :: arest, (bk, bv) :: brest =>
      if ak != bk then .ok (.bool false)
      else
        match evalEqVal av bv with
        | .error e => .error e
        | .ok v =>
          match asBool v with
          | .error e => .error e
          | .ok b => if b then .ok (.bool false) else evalRecEqLoop arest brest
  | _, _ => .ok (.bool true)

/-- The array-equality loop of `eval_binary`'s `(Array, Array)` `Eq` arm:
`if !eval(Eq, a, b)?.as_bool()? { return Ok(Bool(false)) }`. -/
def evalArrEqLoop : List QueryValue → List QueryValue → Except EvalError QueryValue
  | a :: arest, b :: brest =>
      match evalEqVal a b with
      | .error e => .error e
      | .ok v =>
        match asBool v with
        | .error e => .error e
        | .ok r => if !r then .ok (.bool false) else evalArrEqLoop arest brest
  | _, _ => .ok (.bool true)

end

/-- The `CONTAINS` loop of `eval_binary`'s `(Array(values), value)` arm. -/
def evalContainsLoop (v : QueryValue) : List QueryValue → Except EvalError QueryValue
  | [] => .ok (.bool false)
  | a :: rest =>
      match evalEqVal a v with
      | .error e => .error e
      | .ok w =>
        match asBool w with
        | .error e => .error e
        | .ok r => if r then .ok (.bool true) else evalContainsLoop v rest

/-- `Interpreter::eval_binary` from eval.rs, full operator dispatch.  The
match arms appear in source order; notably `(Array, Array)` is matched
before the `CONTAINS` arm, exactly as in the source. -/
def evalBinary (op : Operator) (a b : QueryValue) : Except EvalError QueryValue :=
  match a, b with
  | .null, .null => .ok .null
  | .str x, .str y =>
    match op with
    | .eq => .ok (.bool (x == y))
    | .neq => .ok (.bool (x != y))
    | .lt => .ok (.bool (decide (x < y)))
    | .lte => .ok (.bool (decide (x ≤ y)))
    | .gt => .ok (.bool (decide (y < x)))
    | .gte => .ok (.bool (decide (y ≤ x)))
    | _ => .error (.runtime ("unsupported operator " ++ opName op ++ " for String"))
  | .num x, .num y =>
    match op with
    | .add => .ok (.num (x + y))
    | .sub => .ok (.num (x - y))
    | .mul => .ok (.num (x * y))
    | .div => .ok (.num (x / y))
    | .eq => .ok (.bool (x == y))
    | .neq => .ok (.bool (x != y))
    | .lt => .ok (.bool (decide (x < y)))
    | .lte => .ok (.bool (decide (x ≤ y)))
    | .gt => .ok (.bool (decide (y < x)))
    | .gte => .ok (.bool (decide (y ≤ x)))
    | _ => .error (.runtime ("unsupported operator " ++ opName op ++ " for Number"))
  | .bool x, .bool y =>
    match op with
    | .eq => .ok (.bool (x == y))
    | .neq => .ok (.bool (x != y))
    | .lt => .ok (.bool (decide (x < y)))
    | .lte => .ok (.bool (decide (x ≤ y)))
    | .gt => .ok (.bool (decide (y < x)))
    | .gte => .ok (.bool (decide (y ≤ x)))
    | .and => .ok (.bool (x && y))
    | .or => .ok (.bool (x || y))
    | .xor => .ok (.bool (x ^^ y))
    | _ => .error (.runtime ("unsupported operator " ++ opName op ++ " for Bool"))
  | .record x, .record y =>
    match op with
    | .eq => evalEqVal (.record x) (.record y)
    | .neq =>
      match evalEqVal (.record x) (.record y) with
      | .error e => .error e
      | .ok v =>
        match asBool v with
        | .error e => .error e
        | .ok b => .ok (.bool (!b))
    | _ => .error (.runtime ("unsupported operator " ++ opName op ++ " for Record"))
  | .array x, .array y =>
    match op with
    | .eq => evalEqVal (.array x) (.array y)
    | .neq =>
      match evalEqVal (.array x) (.array y) with
      | .error e => .error e
      | .ok v =>
        match asBool v with
        | .error e => .error e
        | .ok b => .ok (.bool (!b))
    | _ => .error (.runtime ("unsupported operator " ++ opName op ++ " for Array"))
  | .dateTime x, .dateTime y =>
    match op with
    | .eq => .ok (.bool (x == y))
    | .neq => .ok (.bool (x != y))
    | .lt => .ok (.bool (decide (x < y)))
    | .lte => .ok (.bool (decide (x ≤ y)))
    | .gt => .ok (.bool (decide (y < x)))
    | .gte => .ok (.bool (decide (y ≤ x)))
    | _ => .error (.runtime ("unsupported operator " ++ opName op ++ " for DateTime"))
  | .date x, .date y =>
    match op with
    | .eq => .ok (.bool (x == y))
    | .neq => .ok (.bool (x != y))
    | .lt => .ok (.bool (decide (x < y)))
    | .lte => .ok (.bool (decide (x ≤ y)))
    | .gt => .ok (.bool (decide (y < x)))
    | .gte => .ok (.bool (decide (y ≤ x)))
    | _ => .error (.runtime ("unsupported operator " ++ opName op ++ " for Date"))
  | .time x, .time y =>
    match op with
    | .eq => .ok (.bool (x == y))
    | .neq => .ok (.bool (x != y))
    | .lt => .ok (.bool (decide (x < y)))
    | .lte => .ok (.bool (decide (x ≤ y)))
    | .gt => .ok (.bool (decide (y < x)))
    | .gte => .ok (.bool (decide (y ≤ x)))
    | _ => .error (.runtime ("unsupported operator " ++ opName op ++ " for Time"))
  | .array vals, v =>
    if op = .contains then evalContainsLoop v vals
    else .error (.runtime ("unsupported binary operation " ++ opName op ++ " for given types"))
  | _, _ => .error (.runtime ("unsupported binary operation " ++ opName op ++ " for given types"))

/-- The external numeric / chrono / randomness kernels the interpreter calls
(`f64` intrinsics, `rand`, `chrono` accessors and `Display`s).  They are
dependencies of the crate, not part of it, so the embedding abstracts over
them; no claim settled here depends on their values. -/
structure ExternOps where
  fabs : Rat → Rat
  fceil : Rat → Rat
  ffloor : Rat → Rat
  fround : Rat → Rat
  fcos : Rat → Rat
  fsin : Rat → Rat
  ftan : Rat → Rat
  fexp : Rat → Rat
  fpowi : Rat → Int → Rat
  fsqrt : Rat → Rat
  frand : Rat
  fpi : Rat
  fnow : Int
  dtYear : Int → Int
  dtMonth : Int → Int
  dtDay : Int → Int
  dtHour : Int → Int
  dtMinute : Int → Int
  dtWeekday : Int → Int
  dYear : Int → Int
  dMonth : Int → Int
  dDay : Int → Int
  dWeekday : Int → Int
  tHour : Int → Int
  tMinute : Int → Int
  dtShow : Int → String
  dShow : Int → String
  tShow : Int → String

/-- A concrete instantiation of the external kernels, used only to
instantiate universally quantified theorems at a specific input. -/
def zeroOps : ExternOps where
  fabs := fun _ => 0
  fceil := fun _ => 0
  ffloor := fun _ => 0
  fround := fun _ => 0
  fcos := fun _ => 0
  fsin := fun _ => 0
  ftan := fun _ => 0
  fexp := fun _ => 0
  fpowi := fun _ _ => 0
  fsqrt := fun _ => 0
  frand := 0
  fpi := 0
  fnow := 0
  dtYear := fun _ => 0
  dtMonth := fun _ => 0
  dtDay := fun _ => 0
  dtHour := fun _ => 0
  dtMinute := fun _ => 0
  dtWeekday := fun _ => 0
  dYear := fun _ => 0
  dMonth := fun _ => 0
  dDay := fun _ => 0
  dWeekday := fun _ => 0
  tHour := fun _ => 0
  tMinute := fun _ => 0
  dtShow := fun _ => ""
  dShow := fun _ => ""
  tShow := fun _ => ""

/-- ASCII lowering of a character code (`u8::to_ascii_lowercase`). -/
def charLowerAscii (c : Char) : Nat :=
  if 65 ≤ c.toNat ∧ c.toNat ≤ 90 then c.toNat + 32 else c.toNat

/-- `str::eq_ignore_ascii_case` on the characters (the builtin names are
ASCII, where bytewise and characterwise comparison agree). -/
def eqIgnoreCaseList : List Char → List Char → Bool
  | [], [] => true
  | a :: arest, b :: brest =>
    (charLowerAscii a == charLowerAscii b) && eqIgnoreCaseList arest brest
  | _, _ => false

/-- `str::eq_ignore_ascii_case`. -/
def eqIgnoreCase (a b : String) : Bool :=
  eqIgnoreCaseList a.toList b.toList

/-- `as i32` truncation used by `pow(x, y) = x.powi(y.0 as i32)`. -/
def ratTrunc (q : Rat) : Int :=
  q.num.tdiv q.den

/-- Decimal digits of the fractional part `num/den`; every `f64` has a
terminating decimal expansion of fewer than 1100 digits, so the fuel never
runs out on values a double can take. -/
def fracDigits : Nat → Nat → Nat → String
  | 0, _, _ => ""
  | fuel + 1, num, den =>
      if num = 0 then ""
      else
        let num := num * 10
        toString (num / den) ++ fracDigits fuel (num % den) den

/-- `OrderedFloat<f64>::to_string` (Rust `f64` `Display`): sign, integer
part, and — when non-integral — a `.` followed by the terminating decimal
expansion of the fractional part. -/
def numToString (q : Rat) : String :=
  let sign := if q.num < 0 then "-" else ""
  let a := q.num.natAbs
  let frac := fracDigits 1100 (a % q.den) q.den
  if frac = "" then sign ++ toString (a / q.den)
  else sign ++ toString (a / q.den) ++ "." ++ frac

/-- Byte index of the first occurrence of `needle` in `hay`
(`str::find`), walking char by char and accumulating UTF-8 sizes. -/
def strFindAux (needle : List Char) (acc : Nat) (hay : List Char) : Option Nat :=
  if needle.isPrefixOf hay then some acc
  else
    match hay with
    | [] => none
    | c :: rest => strFindAux needle (acc + c.utf8Size) rest
termination_by hay.length

/-- Math branches of the builtin dispatch chain (eval.rs lines 394-466),
in source order.  The source has two `floor` branches (the second computing
`n.round()`, dead code) and no `round` branch; both are kept as in the
source.  A branch whose name or argument pattern does not apply yields
`none` so that the next branch is tried. -/
def evalAppMath (ops : ExternOps) (funName : String) (args : List QueryValue) :
    Option (Except EvalError QueryValue) :=
  (if eqIgnoreCase funName "abs" then
    match args with
    | .num n :: _ => some (.ok (.num (ops.fabs n)))
    | _ => none
   else none) <|>
  (if eqIgnoreCase funName "ceil" then
    match args with
    | .num n :: _ => some (.ok (.num (ops.fceil n)))
    | _ => none
   else none) <|>
  (if eqIgnoreCase funName "floor" then
    match args with
    | .num n :: _ => some (.ok (.num (ops.ffloor n)))
    | _ => none
   else none) <|>
  (if eqIgnoreCase funName "floor" then
    match args with
    | .num n :: _ => some (.ok (.num (ops.fround n)))
    | _ => none
   else none) <|>
  (if eqIgnoreCase funName "cos" then
    match args with
    | .num n :: _ => some (.ok (.num (ops.fcos n)))
    | _ => none
   else none) <|>
  (if eqIgnoreCase funName "sin" then
    match args with
    | .num n :: _ => some (.ok (.num (ops.fsin n)))
    | _ => none
   else none) <|>
  (if eqIgnoreCase funName "tan" then
    match args with
    | .num n :: _ => some (.ok (.num (ops.ftan n)))
    | _ => none
   else none) <|>
  (if eqIgnoreCase funName "exp" then
    match args with
    | .num n :: _ => some (.ok (.num (ops.fexp n)))
    | _ => none
   else none) <|>
  (if eqIgnoreCase funName "pow" then
    match args with
    | .num x :: .num y :: _ => some (.ok (.num (ops.fpowi x (ratTrunc y))))
    | _ => none
   else none) <|>
  (if eqIgnoreCase funName "sqrt" then
    match args with
    | .num n :: _ => some (.ok (.num (ops.fsqrt n)))
    | _ => none
   else none) <|>
  (if eqIgnoreCase funName "rand" then some (.ok (.num ops.frand)) else none) <|>
  (if eqIgnoreCase funName "pi" then some (.ok (.num ops.fpi)) else none)

/-- String branches of the builtin dispatch chain (eval.rs lines 468-550),
in source order. -/
def evalAppStr (funName : String) (args : List QueryValue) :
    Option (Except EvalError QueryValue) :=
  (if eqIgnoreCase funName "lower" then
    match args with
    | .str s :: _ => some (.ok (.str s.toLower))
    | _ => none
   else none) <|>
  (if eqIgnoreCase funName "upper" then
    match args with
    | .str s :: _ => some (.ok (.str s.toUpper))
    | _ => none
   else none) <|>
  (if eqIgnoreCase funName "trim" then
    match args with
    | .str s :: _ => some (.ok (.str s.trim))
    | _ => none
   else none) <|>
  (if eqIgnoreCase funName "ltrim" then
    match args with
    | .str s :: _ => some (.ok (.str s.trimLeft))
    | _ => none
   else none) <|>
  (if eqIgnoreCase funName "rtrim" then
    match args with
    | .str s :: _ => some (.ok (.str s.trimRight))
    | _ => none
   else none) <|>
  (if eqIgnoreCase funName "len" then
    match args with
    | .str s :: _ => some (.ok (.num ((s.utf8ByteSize : Nat) : Rat)))
    | _ => none
   else none) <|>
  (if eqIgnoreCase funName "instr" then
    match args with
    | .str x :: .str y :: _ =>
        some (.ok (.num (((strFindAux y.toList 0 x.toList).map (fun i => i + 1) |>.getD 0 : Nat) : Rat)))
    | _ => none
   else none) <|>
  (if eqIgnoreCase funName "substring" then
    match args with
    | .str s :: .num start :: .num length :: _ =>
        some (.ok (.str (String.mk
          ((s.toList.drop (ratTrunc start).toNat).take (ratTrunc length).toNat))))
    | _ => none
   else none) <|>
  (if eqIgnoreCase funName "replace" then
    match args with
    | .str x :: .str y :: .str z :: _ => some (.ok (.str (x.replace y z)))
    | _ => none
   else none) <|>
  (if eqIgnoreCase funName "startswith" then
    match args with
    | .str x :: .str y :: _ => some (.ok (.bool (x.startsWith y)))
    | _ => none
   else none) <|>
  (if eqIgnoreCase funName "endswith" then
    match args with
    | .str x :: .str y :: _ => some (.ok (.bool (x.endsWith y)))
    | _ => none
   else none)

/-- Date/time branches of the builtin dispatch chain (eval.rs lines
552-626), in source order.  Unlike the earlier branches, a name match with
a wrongly typed argument raises the branch-specific runtime error instead
of falling through. -/
def evalAppTime (ops : ExternOps) (funName : String) (args : List QueryValue) :
    Option (Except EvalError QueryValue) :=
  (if eqIgnoreCase funName "now" then some (.ok (.dateTime ops.fnow)) else none) <|>
  (if eqIgnoreCase funName "year" then
    some (match args with
      | .dateTime t :: _ => .ok (.num ((ops.dtYear t : Int) : Rat))
      | .date d :: _ => .ok (.num ((ops.dYear d : Int) : Rat))
      | _ => .error (.runtime "year() requires a DateTime or Date argument"))
   else none) <|>
  (if eqIgnoreCase funName "month" then
    some (match args with
      | .dateTime t :: _ => .ok (.num ((ops.dtMonth t : Int) : Rat))
      | .date d :: _ => .ok (.num ((ops.dMonth d : Int) : Rat))
      | _ => .error (.runtime "month() requires a DateTime or Date argument"))
   else none) <|>
  (if eqIgnoreCase funName "day" then
    some (match args with
      | .dateTime t :: _ => .ok (.num ((ops.dtDay t : Int) : Rat))
      | .date d :: _ => .ok (.num ((ops.dDay d : Int) : Rat))
      | _ => .error (.runtime "day() requires a DateTime or Date argument"))
   else none) <|>
  (if eqIgnoreCase funName "hour" then
    some (match args with
      | .dateTime t :: _ => .ok (.num ((ops.dtHour t : Int) : Rat))
      | .time t :: _ => .ok (.num ((ops.tHour t : Int) : Rat))
      | _ => .error (.runtime "hour() requires a DateTime or Time argument"))
   else none) <|>
  (if eqIgnoreCase funName "minute" then
    some (match args with
      | .dateTime t :: _ => .ok (.num ((ops.dtMinute t : Int) : Rat))
      | .time t :: _ => .ok (.num ((ops.tMinute t : Int) : Rat))
      | _ => .error (.runtime "minute() requires a DateTime or Time argument"))
   else none) <|>
  (if eqIgnoreCase funName "weekday" then
    some (match args with
      | .dateTime t :: _ => .ok (.num ((ops.dtWeekday t : Int) : Rat))
      | .date d :: _ => .ok (.num ((ops.dWeekday d : Int) : Rat))
      | _ => .error (.runtime "weekday() requires a DateTime or Date argument"))
   else none)

/-- Conditional branch of the builtin dispatch chain (eval.rs lines
628-637): `if(cond, then, else)`, both branches already evaluated. -/
def evalAppCond (funName : String) (args : List QueryValue) :
    Option (Except EvalError QueryValue) :=
  if eqIgnoreCase funName "if" then
    match args with
    | .bool b :: rest =>
        some (.ok (if b then rest.getD 0 .null else rest.getD 1 .null))
    | _ => none
  else none

/-- `Interpreter::eval`'s `Value::App` arm from eval.rs (lines 385-642):
the case-insensitive builtin dispatch chain, given the already-evaluated
arguments.  Branch groups appear in source order; the fall-through raises
`unknown function or invalid arguments`.  Where the source indexes
`args[0]`/`args[1]`/`args[2]` (panicking on too few arguments, a case the
static analyzer rules out), the model falls through or errors instead. -/
def evalApp (ops : ExternOps) (funName : String) (args : List QueryValue) :
    Except EvalError QueryValue :=
  (evalAppMath ops funName args <|>
   evalAppStr funName args <|>
   evalAppTime ops funName args <|>
   evalAppCond funName args).getD
    (.error (.runtime ("unknown function or invalid arguments: " ++ funName)))

/-- The group-key computation inside `AggQuery::next` (aggregates/mod.rs
lines 407-425): the evaluated GROUP BY value becomes a `String` key via its
rendering; `Record`, `Array` and `Null` raise
`Runtime("unexpected group by value")`. -/
def renderGroupKey (ops : ExternOps) : QueryValue → Except EvalError String
  | .str s => .ok s
  | .num n => .ok (numToString n)
  | .bool b => .ok (cond b "true" "false")
  | .dateTime t => .ok (ops.dtShow t)
  | .date d => .ok (ops.dShow d)
  | .time t => .ok (ops.tShow t)
  | _ => .error (.runtime "unexpected group by value")

/-- `QueryValue::type_order` from values.rs. -/
def QueryValue.typeOrder : QueryValue → Nat
  | .null => 0
  | .str _ => 1
  | .num _ => 2
  | .bool _ => 3
  | .record _ => 4
  | .array _ => 5
  | .dateTime _ => 6
  | .date _ => 7
  | .time _ => 8

mutual

/-- The `Ord` impl for `QueryValue` from values.rs: same-variant pairs
compare payloads (`Number` via `total_cmp`), `Array`/`Record` compare
lexicographically over elements / sorted key-value pairs, and mixed
variants fall back to `type_order`. -/
def QueryValue.cmp : QueryValue → QueryValue → Ordering
  | .null, .null => .eq
  | .str a, .str b => compare a b
  | .bool a, .bool b => compare a b
  | .num a, .num b => compare a b
  | .dateTime a, .dateTime b => compare a b
  | .date a, .date b => compare a b
  | .time a, .time b => compare a b
  | .array a, .array b => cmpElems a b
  | .record a, .record b => cmpFields a b
  | a, b => compare a.typeOrder b.typeOrder

/-- Lexicographic comparison of `Vec<QueryValue>`. -/
def cmpElems : List QueryValue → List QueryValue → Ordering
  | [], [] => .eq
  | [], _ :: _ => .lt
  | _ :: _, [] => .gt
  | a :: arest, b :: brest =>
    match QueryValue.cmp a b with
    | .eq => cmpElems arest brest
    | o => o

/-- Lexicographic comparison of `BTreeMap<String, QueryValue>` iterated in
sorted key order: key first, then value. -/
def cmpFields :
    List (String × QueryValue) → List (String × QueryValue) → Ordering
  | [], [] => .eq
  | [], _ :: _ => .lt
  | _ :: _, [] => .gt
  | (ak, av) :: arest, (bk, bv) :: brest =>
    match compare ak bk with
    | .eq =>
      match QueryValue.cmp av bv with
      | .eq => cmpFields arest brest
      | o => o
    | o => o

end

/-- The `QueryOrderer`'s `BTreeMap<QueryValue, Vec<QueryValue>>` from
orderer.rs, as a key-sorted association list. -/
abbrev OrdererMap := List (QueryValue × List QueryValue)

/-- `QueryOrderer::insert`: `order_map.entry(key).or_default().push(value)`. -/
def ordererInsert (key value : QueryValue) : OrdererMap → OrdererMap
  | [] => [(key, [value])]
  | (k, vs) :: rest =>
    match QueryValue.cmp key k with
    | .lt => (key, [value]) :: (k, vs) :: rest
    | .eq => (k, vs ++ [value]) :: rest
    | .gt => (k, vs) :: ordererInsert key value rest

/-- `QueryOrderer::prepare_for_streaming` followed by draining `next`:
ascending yields the per-key batches in ascending key order, each batch in
insertion order; descending yields the batches in descending key order,
each batch reversed. -/
def ordererOutput (order : Order) (m : OrdererMap) : List QueryValue :=
  match order with
  | .asc => (m.map Prod.snd).flatten
  | .desc => (m.reverse.map (fun kv => kv.2.reverse)).flatten

/-- Whether the `Top` guard `emitted >= n` of `EventQuery::next` fires. -/
def topExceeded : Option Limit → Nat → Bool
  | some (.top n), emitted => decide (emitted ≥ n)
  | _, _ => false

/-- Whether the `Skip` guard `skipped < n` of `EventQuery::next` fires. -/
def skipNeeded : Option Limit → Nat → Bool
  | some (.skip n), skipped => decide (skipped < n)
  | _, _ => false

/-- The inputs of a scalar `EventQuery` pipeline (events.rs): the
predicate, projection and optional ORDER BY key evaluations (each a use of
the interpreter on the environment filled from the sources), the effective
order (`query.order_by.map_or(Asc, |o| o.order)`) and the optional limit.
The row stream itself is passed separately: an `Err` item is a pull on
which `srcs.fill` reported an evaluation error. -/
structure EQModel (Row : Type) where
  pred : Row → Except EvalError Bool
  proj : Row → Except EvalError QueryValue
  orderKey : Option (Row → Except EvalError QueryValue)
  order : Order
  limit : Option Limit

/-- The `completed` branch of `EventQuery::next`, iterated to exhaustion:
check the `Top` guard before pulling from the orderer, drop values while
the `Skip` guard fires, emit otherwise.  (When the orderer was empty,
`prepare_for_streaming` returns `None` and the iterator ends; that case
coincides with draining an empty stream.) -/
def eqEmitPhase (limit : Option Limit) (skipped emitted : Nat)
    (stream : List QueryValue) : List (Except EvalError QueryValue) :=
  if topExceeded limit emitted then []
  else
    match stream with
    | [] => []
    | v :: rest =>
      if skipNeeded limit skipped then eqEmitPhase limit (skipped + 1) emitted rest
      else .ok v :: eqEmitPhase limit skipped (emitted + 1) rest
termination_by stream.length

/-- The main loop of `EventQuery::next` (events.rs lines 38-113), iterated
to exhaustion.  Each pull either surfaces a fill/predicate/eval error and
continues, drops a predicate-false row, feeds `(key, projection)` to the
orderer when ORDER BY is present, or — without ORDER BY — applies the
`Top` guard eagerly (ending the stream), evaluates the projection, applies
the `Skip` guard, and emits.  On source exhaustion it switches to the
completed branch over the prepared orderer stream. -/
def eqLoadPhase {Row : Type} (m : EQModel Row) (skipped emitted : Nat)
    (omap : OrdererMap) : List (Except EvalError Row) → List (Except EvalError QueryValue)
  | [] => eqEmitPhase m.limit skipped emitted (ordererOutput m.order omap)
  | .error e :: rest => .error e :: eqLoadPhase m skipped emitted omap rest
  | .ok r :: rest =>
    match m.pred r with
    | .error e => .error e :: eqLoadPhase m skipped emitted omap rest
    | .ok false => eqLoadPhase m skipped emitted omap rest
    | .ok true =>
      match m.orderKey with
      | some keyf =>
        match keyf r with
        | .error e => .error e :: eqLoadPhase m skipped emitted omap rest
        | .ok key =>
          match m.proj r with
          | .error e => .error e :: eqLoadPhase m skipped emitted omap rest
          | .ok v => eqLoadPhase m skipped emitted (ordererInsert key v omap) rest
      | none =>
        if topExceeded m.limit emitted then []
        else
          match m.proj r with
          | .error e => .error e :: eqLoadPhase m skipped emitted omap rest
          | .ok v =>
            if skipNeeded m.limit skipped then eqLoadPhase m (skipped + 1) emitted omap rest
            else .ok v :: eqLoadPhase m skipped (emitted + 1) omap rest

/-- Draining a freshly constructed `EventQuery` (counters zero, empty
orderer) over the given source stream. -/
def eqDrain {Row : Type} (m : EQModel Row) (rows : List (Except EvalError Row)) :
    List (Except EvalError QueryValue) :=
  eqLoadPhase m 0 0 [] rows

/-- One group's accumulator bundle (`AggGroup` in aggregates/mod.rs): the
optional ordered aggregate (present when ORDER BY's expression is an
aggregate application) and the projection's `AggState`. -/
structure AggGroupSt (O S : Type) where
  ordered : Option O
  state : S

/-- The inputs of a grouped `AggQuery` pipeline (aggregates/mod.rs).
`foldProj` and `foldOrder` stand for `eval_agg_value`, which is called from
`AggQuery::next` but is not among the sources.  Modelled from the spec:
"fold each aggregate's arguments through the interpreter" — folding a row
into an accumulator may fail with an evaluation error and otherwise
returns the updated accumulator.  `initState` is
`AggState::from(session, &query)`, `complete` is `AggState::complete`,
`orderInit` is `instantiate_ordered_aggregate(...)`, `orderedEmit` the
`Emit::Grouped { ordered, .. }` field (`query.order_by.map(|o| o.order)`).
`havingEval` stands for evaluating the HAVING predicate
(`group_by.predicate`) against a group's accumulators, and `limit` is
`query.limit`; both are part of the query the pipeline is built from. -/
structure AggModel (Row O S : Type) where
  pred : Row → Except EvalError Bool
  groupKeyEval : Row → Except EvalError QueryValue
  initState : S
  foldProj : S → Row → Except EvalError S
  complete : S → QueryValue
  orderInit : Option O
  foldOrder : O → Row → Except EvalError O
  completeOrder : O → QueryValue
  orderedEmit : Option Order
  havingEval : S → Except EvalError Bool
  limit : Option Limit
  ops : ExternOps

/-- The grouped pipeline's `HashMap<String, AggGroup>`, determinised as an
insertion-ordered association list (a Rust `HashMap`'s iteration order is
unspecified, so theorems below only use membership and lengths of the
resulting output, never positions). -/
abbrev Groups (O S : Type) := List (String × AggGroupSt O S)

/-- Association-list lookup (`HashMap::get` on the group key). -/
def assocFind {G : Type} (k : String) : List (String × G) → Option G
  | [] => none
  | (k', g) :: rest => if k' == k then some g else assocFind k rest

/-- Association-list insert-or-replace (`HashMap::entry` + mutation). -/
def assocUpdate {G : Type} (k : String) (g : G) : List (String × G) → List (String × G)
  | [] => [(k, g)]
  | (k', g') :: rest => if k' == k then (k, g) :: rest else (k', g') :: assocUpdate k g rest

/-- `AggGroup::update_order_agg`: fold the row into the ordered aggregate
when one is present. -/
def aggFoldOrder {Row O S : Type} (m : AggModel Row O S) (g : AggGroupSt O S) (r : Row) :
    Except EvalError (AggGroupSt O S) :=
  match g.ordered with
  | some o =>
    match m.foldOrder o r with
    | .error e => .error e
    | .ok o' => .ok { g with ordered := some o' }
  | none => .ok g

/-- The completion pass of `AggQuery::next` (aggregates/mod.rs lines
360-389) for the grouped layout: with ORDER BY, each group contributes
`(completed order aggregate | Null, completed state)` to the orderer and
the prepared stream is materialised; otherwise the groups' completed
states are materialised directly.  The HAVING predicate and the limit are
not consulted anywhere in this pass. -/
def aggCompletionG {Row O S : Type} (m : AggModel Row O S) (gs : Groups O S) :
    List (Except EvalError QueryValue) :=
  match m.orderedEmit with
  | some ord =>
    let omap := gs.foldl
      (fun acc kv =>
        ordererInsert
          (match kv.2.ordered with
           | some o => m.completeOrder o
           | none => QueryValue.null)
          (m.complete kv.2.state) acc)
      []
    (ordererOutput ord omap).map .ok
  | none => gs.map (fun kv => .ok (m.complete kv.2.state))

/-- The main loop of `AggQuery::next` (aggregates/mod.rs lines 347-453) for
a grouped query, iterated to exhaustion.  Each pull surfaces fill /
predicate / key-evaluation errors and continues; a predicate-true row has
its GROUP BY value rendered to a string key (`renderGroupKey`), the group
is looked up or freshly created, the ordered aggregate is folded, then the
projection's aggregates are folded.  On exhaustion the completion pass
materialises the results, which the remaining pulls then stream. -/
def aggDrainG {Row O S : Type} (m : AggModel Row O S) (gs : Groups O S) :
    List (Except EvalError Row) → List (Except EvalError QueryValue)
  | [] => aggCompletionG m gs
  | .error e :: rest => .error e :: aggDrainG m gs rest
  | .ok r :: rest =>
    match m.pred r with
    | .error e => .error e :: aggDrainG m gs rest
    | .ok false => aggDrainG m gs rest
    | .ok true =>
      match m.groupKeyEval r with
      | .error e => .error e :: aggDrainG m gs rest
      | .ok v =>
        match renderGroupKey m.ops v with
        | .error e => .error e :: aggDrainG m gs rest
        | .ok s =>
          let g := (assocFind s gs).getD ⟨m.orderInit, m.initState⟩
          match aggFoldOrder m g r with
          | .error e => .error e :: aggDrainG m (assocUpdate s g gs) rest
          | .ok g1 =>
            match m.foldProj g1.state r with
            | .error e => .error e :: aggDrainG m (assocUpdate s g1 gs) rest
            | .ok st => aggDrainG m (assocUpdate s { g1 with state := st } gs) rest

/-- The inputs of a non-grouped (`Emit::Single`) `AggQuery` pipeline.
`limit` is `query.limit`, carried by the query but never consulted. -/
structure AggSingleModel (Row S : Type) where
  pred : Row → Except EvalError Bool
  foldProj : S → Row → Except EvalError S
  complete : S → QueryValue
  limit : Option Limit

/-- The main loop of `AggQuery::next` for a non-grouped aggregate query:
every predicate-true row folds into the single `AggState`, and exhaustion
materialises exactly `vec![agg.complete()]` — the limit is not consulted. -/
def aggDrainS {Row S : Type} (m : AggSingleModel Row S) (st : S) :
    List (Except EvalError Row) → List (Except EvalError QueryValue)
  | [] => [.ok (m.complete st)]
  | .error e :: rest => .error e :: aggDrainS m st rest
  | .ok r :: rest =>
    match m.pred r with
    | .error e => .error e :: aggDrainS m st rest
    | .ok false => aggDrainS m st rest
    | .ok true =>
      match m.foldProj st r with
      | .error e => .error e :: aggDrainS m st rest
      | .ok st' => aggDrainS m st' rest

/-- `BlockError` from blocks.rs. -/
inductive BlockError where
  | outOfSpace
  | wroteTooMuch
  | wroteTooLittle
  | invalidBlockFormat
  | notEnoughDataLeft
  | offsetOutOfBound
  | tooManyMidpoints
deriving DecidableEq, Repr

/-- `LogError` from wal.rs. -/
inductive LogError where
  | wrongFileFormat
  | tooSmall
  | lengthMismatch
  | checksumMismatch
  | segmentCorrupted
  | blockError (e : BlockError)
deriving DecidableEq, Repr

/-- Little-endian byte encoding of `n` on `w` bytes (`put_uNN_le`); wraps
modulo `2^(8w)` exactly as a Rust integer cast would. -/
def leBytes : Nat → Nat → List Nat
  | 0, _ => []
  | w + 1, n => n % 256 :: leBytes w (n / 256)

/-- Little-endian value of a byte list (`get_uNN_le`). -/
def leVal : List Nat → Nat :=
  List.foldr (fun b acc => b + 256 * acc) 0

/-- One bit-round of reflected CRC-32 with polynomial `0xEDB88320`. -/
def crc32Round (c : Nat) : Nat :=
  if c % 2 = 1 then (c / 2) ^^^ 0xEDB88320 else c / 2

/-- `k` bit-rounds of reflected CRC-32. -/
def crc32Rounds : Nat → Nat → Nat
  | 0, c => c
  | k + 1, c => crc32Rounds k (crc32Round c)

/-- Absorb one byte into the CRC-32 state. -/
def crc32Update (c byte : Nat) : Nat :=
  crc32Rounds 8 (c ^^^ (byte % 256))

/-- `crc32fast::hash`: the standard CRC-32 (reflected, polynomial
`0xEDB88320`, initial value and final xor `0xFFFFFFFF`). -/
def crc32 (bytes : List Nat) : Nat :=
  0xFFFFFFFF ^^^ bytes.foldl crc32Update 0xFFFFFFFF

/-- `Block` from blocks.rs: one framed payload, with the `read` cursor of
its field getters. -/
structure Block where
  offset : Nat
  read : Nat
  data : List Nat
deriving Repr

/-- The common shape of `Block::get_u64_le` / `get_u32_le` / `get_u16_le` /
`get_u8`: bounds-check `read + w` against the payload length, decode `w`
little-endian bytes at the cursor, advance the cursor. -/
def Block.getNatLE (w : Nat) (b : Block) : Except BlockError (Nat × Block) :=
  if b.data.length < b.read + w then .error .notEnoughDataLeft
  else .ok (leVal ((b.data.drop b.read).take w), { b with read := b.read + w })

/-- `Block::copy_to_bytes`. -/
def Block.copyToBytes (cnt : Nat) (b : Block) : Except BlockError (List Nat × Block) :=
  if b.data.length < b.read + cnt then .error .notEnoughDataLeft
  else .ok ((b.data.drop b.read).take cnt, { b with read := b.read + cnt })

/-- `Block::remaining` (saturating). -/
def Block.remainingLen (b : Block) : Nat :=
  b.data.length - b.read

/-- `Block::read_content`: the prefix of the payload consumed so far. -/
def Block.readContent (b : Block) : List Nat :=
  b.data.take b.read

/-- `Blocks` from blocks.rs: the reader cursor over a byte buffer.  The
`bytes` field is consumed as the Rust `Bytes` cursor advances, while
`read` tracks the total consumed from `start_offset`. -/
structure Blocks where
  startOffset : Nat
  read : Nat
  bytes : List Nat
deriving Repr

/-- `Blocks::next_block`: `Ok(None)` when fewer than 4 bytes remain; read
the length prefix, check `remaining ≥ prefix + 4`, take the payload, read
and compare the suffix length (mismatch is `InvalidBlockFormat`), advance
by `prefix + 8` and return the payload tagged with its absolute offset. -/
def Blocks.nextBlock (bs : Blocks) : Except BlockError (Option (Block × Blocks)) :=
  if bs.bytes.length < 4 then .ok none
  else if (bs.bytes.drop 4).length < leVal (bs.bytes.take 4) + 4 then
    .error .invalidBlockFormat
  else if leVal (bs.bytes.take 4)
      ≠ leVal (((bs.bytes.drop 4).drop (leVal (bs.bytes.take 4))).take 4) then
    .error .invalidBlockFormat
  else
    .ok (some (⟨bs.startOffset + bs.read, 0, (bs.bytes.drop 4).take (leVal (bs.bytes.take 4))⟩,
      { bs with
          bytes := ((bs.bytes.drop 4).drop (leVal (bs.bytes.take 4))).drop 4,
          read := bs.read + leVal (bs.bytes.take 4) + 8 }))

/-- `Blocks::at`: reposition to an absolute offset, `OffsetOutOfBound`
outside `[start_offset, start_offset + len]`. -/
def Blocks.at (bs : Blocks) (offset : Nat) : Except BlockError Blocks :=
  if offset < bs.startOffset ∨ bs.startOffset + bs.bytes.length < offset then
    .error .offsetOutOfBound
  else .ok ⟨offset, 0, bs.bytes.drop (offset - bs.startOffset)⟩

/-- `Midpoint` from blocks.rs. -/
structure Midpoint where
  lsn : Nat
  offset : Nat
deriving DecidableEq, Repr

/-- Rust's `slice::binary_search_by` loop, comparing each probed
midpoint's `lsn` against the target: `Ok(mid)` on an exact hit, otherwise
`Err(left)` with `left` the insertion point. -/
def binarySearchLoop (tbl : List Midpoint) (target : Nat) (left right : Nat) :
    Except Nat Nat :=
  if _h : left < right then
    let size := right - left
    let mid := left + size / 2
    match compare (tbl.getD mid ⟨0, 0⟩).lsn target with
    | .lt => binarySearchLoop tbl target (mid + 1) right
    | .gt => binarySearchLoop tbl target left mid
    | .eq => .ok mid
  else .error left
termination_by right - left
decreasing_by
  · omega
  · omega

/-- `Midpoints::offset_for_lsn` from blocks.rs (lines 168-177): `0` for an
empty table; otherwise the offset of `inner[idx]` where `idx` is the
result index of the binary search — in the `Err` case as well.  `none`
models the Rust panic of `self.inner[idx]` when `idx` equals the length. -/
def offsetForLsn (inner : List Midpoint) (lsn : Nat) : Option Nat :=
  if inner.isEmpty then some 0
  else
    match binarySearchLoop inner lsn 0 inner.length with
    | .ok idx => (inner.get? idx).map Midpoint.offset
    | .error idx => (inner.get? idx).map Midpoint.offset

/-- `BlocksMut` from blocks.rs: the append buffer with its midpoint
accounting (`mid_freq = limit / 10`). -/
structure BlocksMut where
  limit : Nat
  offset : Nat
  buf : List Nat
  midFreq : Nat
  lastMidOffset : Nat
  midpoints : List Nat
deriving Repr

/-- `BlocksMut::new`. -/
def BlocksMut.make (limit offset lastMidOffset : Nat) (buf : List Nat) : BlocksMut :=
  ⟨limit, offset, buf, limit / 10, lastMidOffset, []⟩

/-- `BlocksMut::available_space` (saturating subtraction, as in
`checked_sub(..).unwrap_or_default()`). -/
def BlocksMut.availableSpace (b : BlocksMut) : Nat :=
  b.limit - (b.offset + b.buf.length)

/-- `BlocksMut::projected_offset`. -/
def BlocksMut.projectedOffset (b : BlocksMut) : Nat :=
  b.offset + b.buf.length

/-- `OpenedBlock` from blocks.rs; `inner` is the mutably borrowed
`BlocksMut`. -/
structure OpenedBlock where
  need : Nat
  blockStartOffset : Nat
  bufStartOffset : Nat
  written : Nat
  inner : BlocksMut
deriving Repr

/-- `BlocksMut::open` (named `openBlock` here, `open` being reserved):
fail `OutOfSpace` when `available_space() < 4 + need + 4`, otherwise write
the length prefix eagerly and hand out the opened block. -/
def BlocksMut.openBlock (b : BlocksMut) (need : Nat) : Except BlockError OpenedBlock :=
  let actualNeed := 4 + need + 4
  if b.availableSpace < actualNeed then .error .outOfSpace
  else
    let blockStartOffset := b.offset + b.buf.length
    let buf' := b.buf ++ leBytes 4 need
    .ok ⟨need, blockStartOffset, buf'.length, 0, { b with buf := buf' }⟩

/-- The common shape of every `OpenedBlock::put_*` operation: bump
`written` by the operation's size *first*, fail `WroteTooMuch` when the
bumped counter exceeds `need` (the buffer untouched, the counter already
bumped — exactly as in the source), otherwise append the bytes. -/
def OpenedBlock.putRaw (ob : OpenedBlock) (chunk : List Nat) :
    Except BlockError Unit × OpenedBlock :=
  let ob := { ob with written := ob.written + chunk.length }
  if ob.written > ob.need then (.error .wroteTooMuch, ob)
  else (.ok (), { ob with inner := { ob.inner with buf := ob.inner.buf ++ chunk } })

/-- `OpenedBlock::put_u8`. -/
def OpenedBlock.putU8 (ob : OpenedBlock) (v : Nat) : Except BlockError Unit × OpenedBlock :=
  ob.putRaw [v % 256]

/-- `OpenedBlock::put_u16_le`. -/
def OpenedBlock.putU16le (ob : OpenedBlock) (v : Nat) : Except BlockError Unit × OpenedBlock :=
  ob.putRaw (leBytes 2 v)

/-- `OpenedBlock::put_u32_le`. -/
def OpenedBlock.putU32le (ob : OpenedBlock) (v : Nat) : Except BlockError Unit × OpenedBlock :=
  ob.putRaw (leBytes 4 v)

/-- `OpenedBlock::put_u64_le`. -/
def OpenedBlock.putU64le (ob : OpenedBlock) (v : Nat) : Except BlockError Unit × OpenedBlock :=
  ob.putRaw (leBytes 8 v)

/-- `OpenedBlock::put_bytes`. -/
def OpenedBlock.putBytes (ob : OpenedBlock) (v : List Nat) :
    Except BlockError Unit × OpenedBlock :=
  ob.putRaw v

/-- `OpenedBlock::zeroes`. -/
def OpenedBlock.zeroes (ob : OpenedBlock) (cnt : Nat) :
    Except BlockError Unit × OpenedBlock :=
  ob.putRaw (List.replicate cnt 0)

/-- `OpenedBlock::written_bytes`. -/
def OpenedBlock.writtenBytes (ob : OpenedBlock) : List Nat :=
  (ob.inner.buf.drop ob.bufStartOffset).take ob.written

/-- The midpoint bookkeeping at the end of `OpenedBlock::finalize`: when
`projected_offset - last_mid_offset > mid_freq` (evaluated after the
suffix length has been appended), record the block's start offset as a
midpoint and advance `last_mid_offset`. -/
def BlocksMut.noteMidpoint (inner : BlocksMut) (blockStart : Nat) : BlocksMut :=
  if inner.projectedOffset - inner.lastMidOffset > inner.midFreq then
    { inner with
        midpoints := inner.midpoints ++ [blockStart],
        lastMidOffset := blockStart }
  else inner

/-- `OpenedBlock::finalize`: fail `WroteTooLittle` when `written < need`;
otherwise write the suffix length and run the midpoint bookkeeping.
Returns the updated `BlocksMut` (the Rust version mutates it through the
borrow). -/
def OpenedBlock.finalize (ob : OpenedBlock) : Except BlockError BlocksMut :=
  if ob.written < ob.need then .error .wroteTooLittle
  else .ok (BlocksMut.noteMidpoint
    { ob.inner with buf := ob.inner.buf ++ leBytes 4 ob.need } ob.blockStartOffset)

/-- `LogOp` from wal.rs. -/
inductive LogOp where
  | unknown (x : Nat)
  | put
  | delete
deriving DecidableEq, Repr

/-- `From<LogOp> for u8`. -/
def LogOp.toByte : LogOp → Nat
  | .unknown x => x
  | .put => 1
  | .delete => 2

/-- `From<u8> for LogOp`. -/
def LogOp.ofByte (x : Nat) : LogOp :=
  if x = 1 then .put else if x = 2 then .delete else .unknown x

/-- `LogContentType` from wal.rs. -/
inductive LogContentType where
  | unknown (x : Nat)
  | json
deriving DecidableEq, Repr

/-- `From<LogContentType> for u8`. -/
def LogContentType.toByte : LogContentType → Nat
  | .unknown x => x
  | .json => 1

/-- `From<u8> for LogContentType`. -/
def LogContentType.ofByte (x : Nat) : LogContentType :=
  if x = 1 then .json else .unknown x

/-- `LogRecord` from wal.rs. -/
structure LogRecord where
  lsn : Nat
  op : LogOp
  contentType : LogContentType
  data : List Nat
deriving DecidableEq, Repr

/-- `LogRecord::size_on_disk`. -/
def LogRecord.sizeOnDisk (r : LogRecord) : Nat :=
  8 + 1 + 1 + 2 + r.data.length + 4

/-- Sequencing helper for the write path: propagate a failed put, continue
with the opened block otherwise (the `?` operator of the source). -/
def putStep {β : Type} (p : Except BlockError Unit × OpenedBlock)
    (k : OpenedBlock → Except BlockError β) : Except BlockError β :=
  match p with
  | (.error e, _) => .error e
  | (.ok _, ob) => k ob

/-- `LogRecord::serialize_into` from wal.rs: open a block of
`size_on_disk` bytes, write `lsn, op, content_type, data_len (u16), data`,
then CRC-32 of everything written so far in the block, and finalize. -/
def LogRecord.serializeInto (r : LogRecord) (blocks : BlocksMut) :
    Except BlockError BlocksMut :=
  match blocks.openBlock r.sizeOnDisk with
  | .error e => .error e
  | .ok ob =>
    putStep (ob.putU64le r.lsn) fun ob =>
    putStep (ob.putU8 r.op.toByte) fun ob =>
    putStep (ob.putU8 r.contentType.toByte) fun ob =>
    putStep (ob.putU16le r.data.length) fun ob =>
    putStep (ob.putBytes r.data) fun ob =>
    putStep (ob.putU32le (crc32 ob.writtenBytes)) fun ob =>
    ob.finalize

/-- Sequencing helper for the read path: wrap block errors into
`LogError::BlockError` (the `From` impl used by `?` in the source). -/
def getStep {α β : Type} (p : Except BlockError (α × Block))
    (k : α → Block → Except LogError β) : Except LogError β :=
  match p with
  | .error e => .error (.blockError e)
  | .ok (a, b) => k a b

/-- `LogRecord::try_deserialize_from` from wal.rs: `TooSmall` below the
minimum record size, then read `lsn, op, content_type, data_len, data`,
take the consumed prefix as the checksummed content, read the CRC-32 and
compare (`ChecksumMismatch` on disagreement). -/
def LogRecord.tryDeserializeFrom (b : Block) : Except LogError LogRecord :=
  if b.remainingLen < 8 then .error .tooSmall
  else
    getStep (b.getNatLE 8) fun lsn b =>
    getStep (b.getNatLE 1) fun opByte b =>
    getStep (b.getNatLE 1) fun ctByte b =>
    getStep (b.getNatLE 2) fun dataLen b =>
    getStep (b.copyToBytes dataLen) fun data b =>
    let content := b.readContent
    getStep (b.getNatLE 4) fun checksum _ =>
    if checksum ≠ crc32 content then .error .checksumMismatch
    else .ok ⟨lsn, LogOp.ofByte opByte, LogContentType.ofByte ctByte, data⟩

/-- `MAGIC_NUM` from wal.rs. -/
def magicNum : Nat := 0x57414C00

/-- `LogSegHeader` from wal.rs. -/
structure LogSegHeader where
  version : Nat
  segmentId : Nat
deriving DecidableEq, Repr

/-- `LogSegHeader::serialize_into` (into a fresh buffer, as used): magic,
version, segment id, zero padding to 128 bytes. -/
def LogSegHeader.serialize (h : LogSegHeader) : List Nat :=
  let bytes := leBytes 4 magicNum ++ leBytes 2 h.version ++ leBytes 8 h.segmentId
  bytes ++ List.replicate (128 - bytes.length) 0

/-- `LogSegHeader::try_deserialize_from`. -/
def LogSegHeader.tryDeserialize (bytes : List Nat) : Except LogError LogSegHeader :=
  if bytes.length < 128 then .error .tooSmall
  else if leVal (bytes.take 4) ≠ magicNum then .error .wrongFileFormat
  else .ok ⟨leVal ((bytes.drop 4).take 2), leVal ((bytes.drop 6).take 8)⟩

/-- `LogSegFooter` from wal.rs. -/
structure LogSegFooter where
  sealed : Bool
  firstLsn : Nat
  lastLsn : Nat
  checksum : Nat
deriving DecidableEq, Repr

/-- `LogSegFooter::serialize_into` (into a fresh buffer): magic, sealed
byte, first lsn; a sealed footer then writes `last_lsn`, zero padding, and
the checksum in the final four bytes, while an unsealed footer writes
zeroes for `last_lsn` and the checksum. -/
def LogSegFooter.serialize (f : LogSegFooter) : List Nat :=
  leBytes 4 magicNum ++ [if f.sealed then 1 else 0] ++ leBytes 8 f.firstLsn ++
    (if f.sealed then
      leBytes 8 f.lastLsn ++ List.replicate (128 - (21 + 4)) 0 ++ leBytes 4 f.checksum
     else
      leBytes 8 0 ++ List.replicate (128 - (21 + 4)) 0 ++ leBytes 4 0)

/-- `LogSegFooter::try_deserialize_from`: `TooSmall` below 128 bytes,
magic check, sealed byte must be `0x00` or `0x01`; an unsealed footer
leaves `last_lsn` and `checksum` at zero, a sealed one reads `last_lsn`
after `first_lsn` and the checksum from the final four bytes. -/
def LogSegFooter.tryDeserialize (bytes : List Nat) : Except LogError LogSegFooter :=
  if bytes.length < 128 then .error .tooSmall
  else if leVal (bytes.take 4) ≠ magicNum then .error .wrongFileFormat
  else if bytes.getD 4 0 = 0 then .ok ⟨false, leVal ((bytes.drop 5).take 8), 0, 0⟩
  else if bytes.getD 4 0 = 1 then
    .ok ⟨true, leVal ((bytes.drop 5).take 8), leVal ((bytes.drop 13).take 8),
          leVal ((bytes.drop 124).take 4)⟩
  else .error .wrongFileFormat

/-- The analyzer's `Type` values that can reach the projection code
(`eventql_parser::Type`, resolved through the arena).  `Type::App` — a
function type — cannot be a data expectation (the source marks that arm
`todo!()` as unreachable) and is left out. -/
inductive QType where
  | unspecified
  | number
  | string
  | subject
  | bool
  | array (t : QType)
  | record (fields : List (String × QType))
  | date
  | time
  | dateTime
  | custom
deriving Repr

/-- A parsed `serde_json::Value`.  An `obj`'s field list is the map's
iteration order (serde_json's map is a `BTreeMap`, so sorted and without
duplicate keys for values it produces; the definitions below do not rely
on that). -/
inductive Json where
  | null
  | bool (b : Bool)
  | num (n : Rat)
  | str (s : String)
  | arr (elems : List Json)
  | obj (fields : List (String × Json))
deriving Repr

/-- `BTreeMap<String, QueryValue>::insert` on the key-sorted association
list representation. -/
def recInsert (k : String) (v : QueryValue) :
    List (String × QueryValue) → List (String × QueryValue)
  | [] => [(k, v)]
  | (k', v') :: rest =>
    match compare k k' with
    | .lt => (k, v) :: (k', v') :: rest
    | .eq => (k, v) :: rest
    | .gt => (k', v') :: recInsert k v rest

mutual

/-- `QueryValue::from(serde_json::Value)` from values.rs: the generic,
expectation-free conversion. -/
def QueryValue.fromJson : Json → QueryValue
  | .null => .null
  | .bool b => .bool b
  | .num n => .num n
  | .str s => .str s
  | .arr xs => .array (fromJsonList xs)
  | .obj fields => .record (fromJsonObj [] fields)

/-- Elementwise conversion of a JSON array. -/
def fromJsonList : List Json → List QueryValue
  | [] => []
  | x :: rest => QueryValue.fromJson x :: fromJsonList rest

/-- The object loop of `QueryValue::from`: insert each converted field
into the `BTreeMap`. -/
def fromJsonObj (acc : List (String × QueryValue)) :
    List (String × Json) → List (String × QueryValue)
  | [] => acc
  | (k, v) :: rest => fromJsonObj (recInsert k (QueryValue.fromJson v) acc) rest

end

/-- The external text parsers (`chrono`), byte-to-string view and JSON
parser (`serde_json`) the projection code calls; dependencies of the
crate, abstracted as parameters. -/
structure ExtParse where
  parseDate : String → Option Int
  parseTime : String → Option Int
  parseDateTime : String → Option Int
  bytesAsStr : List Nat → String
  parseJson : List Nat → Option Json

mutual

/-- `QueryValue::build_from_type_expectation` from values.rs: shape a JSON
value against the expected type.  At a `Record` expectation the loop runs
over the *JSON object's* fields: a field named in the expected record type
is shaped recursively, any other field is converted with the generic
`QueryValue::from` — and inserted either way. -/
def buildFTE (px : ExtParse) : QType → Json → QueryValue
  | .unspecified, v => QueryValue.fromJson v
  | .number, v =>
    match v with
    | .num n => .num n
    | _ => .null
  | .string, v =>
    match v with
    | .str s => .str s
    | _ => .null
  | .subject, v =>
    match v with
    | .str s => .str s
    | _ => .null
  | .bool, v =>
    match v with
    | .bool b => .bool b
    | _ => .null
  | .array t, v =>
    match v with
    | .arr xs => .array (buildFTEList px t xs)
    | _ => .null
  | .record tmap, v =>
    match v with
    | .obj fields => .record (buildFTEObj px tmap [] fields)
    | _ => .null
  | .date, v =>
    match v with
    | .str s =>
      match px.parseDate s with
      | some d => .date d
      | none => .null
    | _ => .null
  | .time, v =>
    match v with
    | .str s =>
      match px.parseTime s with
      | some t => .time t
      | none => .null
    | _ => .null
  | .dateTime, v =>
    match v with
    | .str s =>
      match px.parseDateTime s with
      | some t => .dateTime t
      | none => .null
    | _ => .null
  | .custom, _ => .null

/-- Elementwise shaping of a JSON array against the element expectation. -/
def buildFTEList (px : ExtParse) (t : QType) : List Json → List QueryValue
  | [] => []
  | x :: rest => buildFTE px t x :: buildFTEList px t rest

/-- The `Type::Record` loop of `build_from_type_expectation`: for each
JSON object field, shape it when the expected record type names it,
convert it generically otherwise, and insert it into the result. -/
def buildFTEObj (px : ExtParse) (tmap : List (String × QType))
    (acc : List (String × QueryValue)) :
    List (String × Json) → List (String × QueryValue)
  | [] => acc
  | (name, val) :: rest =>
    let v :=
      match assocFind name tmap with
      | some tpe => buildFTE px tpe val
      | none => QueryValue.fromJson val
    buildFTEObj px tmap (recInsert name v acc) rest

end

/-- `Event` from types.rs.  `id` is the UUID already rendered to text
(`uuid::Uuid` is external; `project` only ever calls `to_string` on it),
`data` the raw payload bytes. -/
structure Event where
  specVersion : String
  id : String
  source : String
  subject : String
  eventType : String
  datacontenttype : String
  data : List Nat

/-- One field of `Event::project` (types.rs lines 26-132): dispatch on the
*expected* field name; a known name with the matching expected type yields
the corresponding event attribute, `data` of `application/json` against a
`Record` or `Unspecified` expectation is parsed and shaped, and every
other combination yields `Null`. -/
def projectField (px : ExtParse) (ev : Event) (name : String) (tpe : QType) : QueryValue :=
  if name = "spec_version" then
    match tpe with
    | .string => .str ev.specVersion
    | _ => .null
  else if name = "id" then
    match tpe with
    | .string => .str ev.id
    | _ => .null
  else if name = "source" then
    match tpe with
    | .string => .str ev.source
    | _ => .null
  else if name = "subject" then
    match tpe with
    | .string => .str ev.subject
    | .subject => .str ev.subject
    | _ => .null
  else if name = "type" then
    match tpe with
    | .string => .str ev.eventType
    | _ => .null
  else if name = "datacontenttype" then
    match tpe with
    | .string => .str ev.datacontenttype
    | _ => .null
  else if name = "data" then
    match tpe with
    | .string => .str (px.bytesAsStr ev.data)
    | .record _ =>
      if ev.datacontenttype = "application/json" then
        match px.parseJson ev.data with
        | some payload => buildFTE px tpe payload
        | none => .null
      else .null
    | .unspecified =>
      if ev.datacontenttype = "application/json" then
        match px.parseJson ev.data with
        | some payload => buildFTE px tpe payload
        | none => .null
      else .null
    | _ => .null
  else .null

/-- `Event::project` from types.rs: for a `Record` expectation, build a
record whose entries are exactly the *expected* field names, each
projected by `projectField`; any other expectation yields `Null`.  (The
source wraps the result in `Ok`; no arm fails.) -/
def Event.project (px : ExtParse) (ev : Event) (expected : QType) : QueryValue :=
  match expected with
  | .record rec =>
    .record (rec.foldl (fun acc nt => recInsert nt.1 (projectField px ev nt.1 nt.2) acc) [])
  | _ => .null

/-- The key set of a record value's field list. -/
def recKeys (fields : List (String × QueryValue)) : List String :=
  fields.map Prod.fst

/-- `BlocksMut::freeze` (test helper in the source): view the written
buffer through a reader positioned at the writer's base offset. -/
def BlocksMut.freeze (b : BlocksMut) : Blocks :=
  ⟨b.offset, 0, b.buf⟩

/-- Well-formedness of a `LogOp`: a byte-sized tag whose `Unknown` payload
is not one of the named tags — i.e. a value `From<u8>` can produce. -/
def LogOp.wf : LogOp → Prop
  | .unknown x => x < 256 ∧ x ≠ 1 ∧ x ≠ 2
  | _ => True

/-- Well-formedness of a `LogContentType`, as for `LogOp`. -/
def LogContentType.wf : LogContentType → Prop
  | .unknown x => x < 256 ∧ x ≠ 1
  | _ => True

/-- Well-formedness of a `LogRecord`: the fields fit their wire widths
(`lsn: u64`, `data_len: u16`), the payload is made of bytes, and the tags
are values deserialization can produce. -/
def LogRecord.wf (r : LogRecord) : Prop :=
  r.lsn < 2 ^ 64 ∧ r.op.wf ∧ r.contentType.wf ∧ r.data.length < 2 ^ 16 ∧
    ∀ b ∈ r.data, b < 256

/-- Well-formedness of a `LogSegHeader` (`version: u16`, `segment_id: u64`). -/
def LogSegHeader.wf (h : LogSegHeader) : Prop :=
  h.version < 2 ^ 16 ∧ h.segmentId < 2 ^ 64

/-- Well-formedness of a `LogSegFooter` (`first_lsn`/`last_lsn: u64`,
`checksum: u32`). -/
def LogSegFooter.wf (f : LogSegFooter) : Prop :=
  f.firstLsn < 2 ^ 64 ∧ f.lastLsn < 2 ^ 64 ∧ f.checksum < 2 ^ 32

/-- Total number of buffered values in an orderer map. -/
def ordererSize (m : OrdererMap) : Nat :=
  (m.map (fun kv => kv.2.length)).sum

/-- Inserting a batch of `(key, value)` pairs into the orderer, in order. -/
def ordererInsertMany (pairs : List (QueryValue × QueryValue)) (m : OrdererMap) :
    OrdererMap :=
  pairs.foldl (fun acc kv => ordererInsert kv.1 kv.2 acc) m

/-- A scalar pipeline whose predicate, projection and order key are total
(no evaluation errors): the setting of the limit law. -/
def pureEQ {Row : Type} (p : Row → Bool) (proj : Row → QueryValue)
    (key : Option (Row → QueryValue)) (order : Order) (limit : Option Limit) :
    EQModel Row where
  pred := fun r => .ok (p r)
  proj := fun r => .ok (proj r)
  orderKey := key.map (fun kf => fun r => .ok (kf r))
  order := order
  limit := limit

/-- The departments scenario of spec §8 (scenario 5) instantiating the
grouped pipeline: a row is its department string, the projection
`{ dept: data.department, n: count() }` folds per group into a `unique`
capture of the department together with a row count (the spec-modelled
`eval_agg_value` folding for that projection), and HAVING is
`count() > 2`. -/
def deptHavingModel : AggModel String Unit (Option QueryValue × Nat) where
  pred := fun _ => .ok true
  groupKeyEval := fun r => .ok (.str r)
  initState := (none, 0)
  foldProj := fun st r => .ok (st.1.orElse (fun _ => some (.str r)), st.2 + 1)
  complete := fun st => .record [("dept", st.1.getD .null), ("n", .num (st.2 : Rat))]
  orderInit := none
  foldOrder := fun o _ => .ok o
  completeOrder := fun _ => .null
  orderedEmit := none
  havingEval := fun st => .ok (decide (st.2 > 2))
  limit := none
  ops := zeroOps

/-- The six department rows of the spec's dataset, in insertion order. -/
def deptRows : List (Except EvalError String) :=
  [.ok "engineering", .ok "engineering", .ok "engineering",
   .ok "sales", .ok "sales", .ok "marketing"]

/-- A non-grouped `count()` query carrying `TOP 0`. -/
def countTopModel : AggSingleModel String Nat where
  pred := fun _ => .ok true
  foldProj := fun st _ => .ok (st + 1)
  complete := fun st => .num (st : Rat)
  limit := some (.top 0)

/-- A non-grouped `count()` query carrying `SKIP 5`. -/
def countSkipModel : AggSingleModel String Nat where
  pred := fun _ => .ok true
  foldProj := fun st _ => .ok (st + 1)
  complete := fun st => .num (st : Rat)
  limit := some (.skip 5)

/-- A grouped `count()` query whose GROUP BY value is `Number 1` on one
row and `String "1"` on the other — distinct values, equal renderings. -/
def mixedKeyModel : AggModel Bool Unit Nat where
  pred := fun _ => .ok true
  groupKeyEval := fun b => .ok (if b then .num 1 else .str "1")
  initState := 0
  foldProj := fun st _ => .ok (st + 1)
  complete := fun st => .num (st : Rat)
  orderInit := none
  foldOrder := fun o _ => .ok o
  completeOrder := fun _ => .null
  orderedEmit := none
  havingEval := fun _ => .ok true
  limit := none
  ops := zeroOps

/-- The expected type of the `data` payload in the C7 scenario:
`{ a: Number }`. -/
def dataExpect : QType := .record [("a", .number)]

/-- The JSON payload in the C7 scenario: `{ "a": 1, "b": 2 }` — field `b`
is absent from the expectation. -/
def dataJson : Json := .obj [("a", .num 1), ("b", .num 2)]

/-- External parsers for the C7 scenario: the JSON parser returns the
payload above. -/
def dataParse : ExtParse where
  parseDate := fun _ => none
  parseTime := fun _ => none
  parseDateTime := fun _ => none
  bytesAsStr := fun _ => ""
  parseJson := fun _ => some dataJson

/-- The event of the C7 scenario: JSON content type. -/
def dataEvent : Event where
  specVersion := "1.0"
  id := "00000000-0000-0000-0000-000000000000"
  source := "src"
  subject := "foo/bar"
  eventType := "user-created"
  datacontenttype := "application/json"
  data := []

/-- C2: the claim states that `=` on two records returns `Bool(true)` iff
the records agree pairwise, so in particular `r = r` is `Bool(true)`.  The
code's elementwise check is inverted: evaluating `=` on the record
`{a: true}` against itself returns `Bool(false)`, and `≠` returns
`Bool(true)`. -/
theorem record_eq_on_equal_record_is_false :
    evalBinary .eq (.record [("a", .bool true)]) (.record [("a", .bool true)])
        = .ok (.bool false) ∧
    evalBinary .neq (.record [("a", .bool true)]) (.record [("a", .bool true)])
        = .ok (.bool true) :=
  ⟨rfl, rfl⟩

/-- C8: the claim states that `round` on a `Number` succeeds with the
rounded value.  The dispatch chain has two `floor` branches (the second
computing `n.round()`, unreachable) and no `round` branch, so the call
falls through to the `unknown function or invalid arguments` error for
every argument list and every choice of numeric kernels. -/
theorem round_dispatch_falls_through (ops : ExternOps) (args : List QueryValue) :
    evalApp ops "round" args
      = .error (.runtime "unknown function or invalid arguments: round") := by
  have h1 : evalAppMath ops "round" args = none := rfl
  have h2 : evalAppStr "round" args = none := rfl
  have h3 : evalAppTime ops "round" args = none := rfl
  have h4 : evalAppCond "round" args = none := rfl
  simp [evalApp, h1, h2, h3, h4]

/-- C4: the claim states that `offset_for_lsn` returns the offset of the
greatest midpoint with `lsn ≤ target`.  On the table
`[(lsn 1, offset 10), (lsn 5, offset 20)]` with target `3` the code
returns `20` — the offset of the *next greater* midpoint — because the
`Err(idx)` branch indexes the insertion point instead of its predecessor;
on `[(lsn 1, offset 10)]` with target `3` it panics (indexes one past the
end, `none` here) although a midpoint with `lsn ≤ 3` exists. -/
theorem offset_for_lsn_returns_next_greater :
    offsetForLsn [⟨1, 10⟩, ⟨5, 20⟩] 3 = some 20 ∧
    offsetForLsn [⟨1, 10⟩] 3 = none := by
  constructor
  · simp [offsetForLsn, binarySearchLoop]
    decide
  · simp [offsetForLsn, binarySearchLoop]
    decide

/-- C5 counterexample: the claim states a failed put leaves the
`OpenedBlock` unchanged.  Opening a block with budget `0` and attempting
`put_u8` fails `WroteTooMuch` with the buffer untouched but the `written`
counter bumped from `0` to `1`. -/
theorem failed_put_u8_bumps_written :
    ∃ ob : OpenedBlock,
      (BlocksMut.make 128 0 0 []).openBlock 0 = .ok ob ∧
      (ob.putU8 5).1 = .error .wroteTooMuch ∧
      ob.written = 0 ∧
      (ob.putU8 5).2.written = 1 ∧
      (ob.putU8 5).2.inner.buf = ob.inner.buf := by
  refine ⟨⟨0, 0, 4, 0, ⟨128, 0, leBytes 4 0, 12, 0, []⟩⟩, rfl, rfl, rfl, rfl, rfl⟩

/-- C5 amended: a put whose size would make `written` exceed `need` fails
`WroteTooMuch` leaving the underlying buffer unchanged, but the `written`
counter *is* advanced by the attempted size.  One conjunct per operation:
`put_u8`, `put_u16_le`, `put_u32_le`, `put_u64_le`, `put_bytes`,
`zeroes`. -/
theorem failed_put_preserves_buffer_but_bumps_written (ob : OpenedBlock) :
    (∀ v, ob.written + 1 > ob.need →
      ob.putU8 v = (.error .wroteTooMuch, { ob with written := ob.written + 1 })) ∧
    (∀ v, ob.written + 2 > ob.need →
      ob.putU16le v = (.error .wroteTooMuch, { ob with written := ob.written + 2 })) ∧
    (∀ v, ob.written + 4 > ob.need →
      ob.putU32le v = (.error .wroteTooMuch, { ob with written := ob.written + 4 })) ∧
    (∀ v, ob.written + 8 > ob.need →
      ob.putU64le v = (.error .wroteTooMuch, { ob with written := ob.written + 8 })) ∧
    (∀ bs : List Nat, ob.written + bs.length > ob.need →
      ob.putBytes bs = (.error .wroteTooMuch, { ob with written := ob.written + bs.length })) ∧
    (∀ cnt, ob.written + cnt > ob.need →
      ob.zeroes cnt = (.error .wroteTooMuch, { ob with written := ob.written + cnt })) := by
  refine ⟨fun v h => ?_, fun v h => ?_, fun v h => ?_, fun v h => ?_,
          fun bs h => ?_, fun cnt h => ?_⟩ <;>
    simp [OpenedBlock.putU8, OpenedBlock.putU16le, OpenedBlock.putU32le,
          OpenedBlock.putU64le, OpenedBlock.putBytes, OpenedBlock.zeroes,
          OpenedBlock.putRaw, leBytes, h]

/-- Witness for the amended C5 theorem at a concrete opened block with
budget `0`. -/
theorem failed_put_preserves_buffer_but_bumps_written_witness :
    (⟨0, 0, 4, 0, ⟨128, 0, leBytes 4 0, 12, 0, []⟩⟩ :
        OpenedBlock).putU8 5
      = (.error .wroteTooMuch,
         { (⟨0, 0, 4, 0, ⟨128, 0, leBytes 4 0, 12, 0, []⟩⟩ : OpenedBlock) with
             written := 1 }) :=
  (failed_put_preserves_buffer_but_bumps_written _).1 5 (by decide)

/-- C3: the claim states SKIP/TOP are applied to an aggregate query's
final materialized sequence.  `AggQuery::next` never consults
`query.limit`: the non-grouped `count()` pipeline carrying `TOP 0` still
emits one row (the claim mandates zero), and carrying `SKIP 5` it also
emits that row (the claim mandates zero). -/
theorem agg_limit_never_applied :
    countTopModel.limit = some (.top 0) ∧
    aggDrainS countTopModel 0 [.ok "a", .ok "b", .ok "c"] = [.ok (.num (3 : Nat))] ∧
    countSkipModel.limit = some (.skip 5) ∧
    aggDrainS countSkipModel 0 [.ok "a", .ok "b", .ok "c"] = [.ok (.num (3 : Nat))] := by
  refine ⟨rfl, rfl, rfl, rfl⟩

/-- C1: the claim states the completion pass evaluates HAVING per group
and drops failing groups, so the spec's scenario
`GROUP BY department HAVING count() > 2` over the six-row dataset yields
exactly the engineering row.  `AggQuery::next` never consults the HAVING
predicate: all three groups are materialised — in particular the `sales`
group, for which the carried HAVING predicate evaluates to `false`,
appears in the output. -/
theorem having_never_applied :
    aggDrainG deptHavingModel [] deptRows =
      [.ok (.record [("dept", .str "engineering"), ("n", .num (3 : Nat))]),
       .ok (.record [("dept", .str "sales"), ("n", .num (2 : Nat))]),
       .ok (.record [("dept", .str "marketing"), ("n", .num (1 : Nat))])] ∧
    deptHavingModel.havingEval (some (.str "sales"), 2) = .ok false ∧
    deptHavingModel.havingEval (some (.str "marketing"), 1) = .ok false := by
  refine ⟨rfl, rfl, rfl⟩

/-- C10: groups are keyed by the *string rendering* of the GROUP BY value.
First part: two rows whose group-by values are distinct but render to the
same string fold into one group, whose completed state has absorbed both
rows.  Second part: a group-by value that is `Null`, a `Record` or an
`Array` makes the pull return `Runtime("unexpected group by value")`
instead of forming a group. -/
theorem group_key_is_string_rendering :
    (∀ (Row O S : Type) (m : AggModel Row O S) (r1 r2 : Row) (v1 v2 : QueryValue)
        (s : String) (st1 st2 : S),
      m.orderInit = none → m.orderedEmit = none →
      m.pred r1 = .ok true → m.pred r2 = .ok true →
      m.groupKeyEval r1 = .ok v1 → m.groupKeyEval r2 = .ok v2 →
      v1 ≠ v2 →
      renderGroupKey m.ops v1 = .ok s → renderGroupKey m.ops v2 = .ok s →
      m.foldProj m.initState r1 = .ok st1 → m.foldProj st1 r2 = .ok st2 →
      aggDrainG m [] [.ok r1, .ok r2] = [.ok (m.complete st2)]) ∧
    (∀ (Row O S : Type) (m : AggModel Row O S) (r : Row) (v : QueryValue),
      m.pred r = .ok true → m.groupKeyEval r = .ok v →
      (v = .null ∨ (∃ fs, v = .record fs) ∨ (∃ es, v = .array es)) →
      aggDrainG m [] [.ok r] = [.error (.runtime "unexpected group by value")]) := by
  constructor
  · intro Row O S m r1 r2 v1 v2 s st1 st2 hOI hOE hp1 hp2 hk1 hk2 _ hr1 hr2 hf1 hf2
    simp [aggDrainG, hp1, hp2, hk1, hk2, hr1, hr2, assocFind, aggFoldOrder, hOI,
          hf1, hf2, assocUpdate, aggCompletionG, hOE]
  · intro Row O S m r v hp hk hv
    have hr : renderGroupKey m.ops v = .error (.runtime "unexpected group by value") := by
      rcases hv with h | ⟨fs, h⟩ | ⟨es, h⟩ <;> subst h <;> rfl
    simp [aggDrainG, hp, hk, hr, aggCompletionG]
    cases hOE : m.orderedEmit with
    | none => simp [ordererOutput]
    | some o => cases o <;> simp [ordererOutput]

/-- Witness for the C10 theorem: on `mixedKeyModel` the two rows' group-by
values are `Number 1` and `String "1"` — distinct values, both rendering
to `"1"` — and the pipeline emits the single group count `2`; a third
pipeline pull whose key evaluates to `Null` yields the runtime error. -/
theorem group_key_is_string_rendering_witness :
    aggDrainG mixedKeyModel [] [.ok true, .ok false] = [.ok (.num (2 : Nat))] ∧
    aggDrainG { mixedKeyModel with groupKeyEval := fun _ => .ok .null } []
        [.ok true] = [.error (.runtime "unexpected group by value")] := by
  constructor
  · exact group_key_is_string_rendering.1 Bool Unit Nat mixedKeyModel true false
      (.num 1) (.str "1") "1" 1 2 rfl rfl rfl rfl rfl rfl
      (fun h => by cases h) rfl rfl rfl rfl
  · exact group_key_is_string_rendering.2 Bool Unit Nat
      { mixedKeyModel with groupKeyEval := fun _ => .ok .null } true .null
      rfl rfl (Or.inl rfl)

/-- An empty orderer prepares an empty stream. -/
theorem ordererOutput_nil (o : Order) : ordererOutput o [] = [] := by
  cases o <;> rfl

/-- Draining the completed branch of an exhausted stream yields nothing. -/
theorem eqEmitPhase_nil (limit : Option Limit) (s e : Nat) :
    eqEmitPhase limit s e [] = [] := by
  rw [eqEmitPhase]
  split <;> rfl

/-- With `Top(n)`, the completed branch emits the first `n - emitted`
stream values. -/
theorem eqEmitPhase_top (n : Nat) :
    ∀ (stream : List QueryValue) (s e : Nat),
      eqEmitPhase (some (.top n)) s e stream = (stream.take (n - e)).map .ok := by
  intro stream
  induction stream with
  | nil => intro s e; simp [eqEmitPhase_nil]
  | cons v rest ih =>
    intro s e
    rw [eqEmitPhase]
    by_cases h : e ≥ n
    · simp [topExceeded, h, Nat.sub_eq_zero_of_le h]
    · have hne : n - e = (n - (e + 1)) + 1 := by omega
      simp [topExceeded, h, skipNeeded, ih s (e + 1), hne, List.take_succ_cons]

/-- With `Skip(k)`, the completed branch drops the first `k - skipped`
stream values and emits the rest. -/
theorem eqEmitPhase_skip (k : Nat) :
    ∀ (stream : List QueryValue) (s e : Nat),
      eqEmitPhase (some (.skip k)) s e stream = (stream.drop (k - s)).map .ok := by
  intro stream
  induction stream with
  | nil => intro s e; simp [eqEmitPhase_nil]
  | cons v rest ih =>
    intro s e
    rw [eqEmitPhase]
    by_cases h : s < k
    · have hne : k - s = (k - (s + 1)) + 1 := by omega
      simp [topExceeded, skipNeeded, h, ih (s + 1) e, hne, List.drop_succ_cons]
    · simp [topExceeded, skipNeeded, h, ih s (e + 1),
            Nat.sub_eq_zero_of_le (Nat.le_of_not_lt h)]

/-- Without ORDER BY and with `Top(n)`, the scalar loop emits the
projections of the first `n - emitted` predicate-true rows, in order. -/
theorem eqLoadPhase_noorder_top {Row : Type} (m : EQModel Row) (p : Row → Bool)
    (proj : Row → QueryValue) (n : Nat)
    (hpred : ∀ r, m.pred r = .ok (p r)) (hproj : ∀ r, m.proj r = .ok (proj r))
    (hkey : m.orderKey = none) (hlim : m.limit = some (.top n)) :
    ∀ (rows : List Row) (s e : Nat),
      eqLoadPhase m s e [] (rows.map .ok)
        = (((rows.filter p).map proj).take (n - e)).map .ok := by
  intro rows
  induction rows with
  | nil => intro s e; simp [eqLoadPhase, hlim, ordererOutput_nil, eqEmitPhase_nil]
  | cons r rest ih =>
    intro s e
    cases hp : p r
    · simp [eqLoadPhase, hpred, hp, ih s e]
    · by_cases h : e ≥ n
      · simp [eqLoadPhase, hpred, hkey, hlim, hp, topExceeded, h, Nat.sub_eq_zero_of_le h]
      · have hne : n - e = (n - (e + 1)) + 1 := by omega
        simp [eqLoadPhase, hpred, hproj, hkey, hlim, hp, topExceeded, h, skipNeeded,
              ih s (e + 1), hne, List.take_succ_cons]

/-- Without ORDER BY and with `Skip(k)`, the scalar loop drops the
projections of the first `k - skipped` predicate-true rows and emits the
remaining ones, in order. -/
theorem eqLoadPhase_noorder_skip {Row : Type} (m : EQModel Row) (p : Row → Bool)
    (proj : Row → QueryValue) (k : Nat)
    (hpred : ∀ r, m.pred r = .ok (p r)) (hproj : ∀ r, m.proj r = .ok (proj r))
    (hkey : m.orderKey = none) (hlim : m.limit = some (.skip k)) :
    ∀ (rows : List Row) (s e : Nat),
      eqLoadPhase m s e [] (rows.map .ok)
        = (((rows.filter p).map proj).drop (k - s)).map .ok := by
  intro rows
  induction rows with
  | nil => intro s e; simp [eqLoadPhase, hlim, ordererOutput_nil, eqEmitPhase_nil]
  | cons r rest ih =>
    intro s e
    cases hp : p r
    · simp [eqLoadPhase, hpred, hp, ih s e]
    · by_cases h : s < k
      · have hne : k - s = (k - (s + 1)) + 1 := by omega
        simp [eqLoadPhase, hpred, hproj, hkey, hlim, hp, topExceeded, skipNeeded, h,
              ih (s + 1) e, hne, List.drop_succ_cons]
      · simp [eqLoadPhase, hpred, hproj, hkey, hlim, hp, topExceeded, skipNeeded, h,
              ih s (e + 1), Nat.sub_eq_zero_of_le (Nat.le_of_not_lt h)]

/-- With ORDER BY, the scalar loop buffers every predicate-true row's
`(key, projection)` pair and, once the source is exhausted, streams the
prepared orderer through the completed branch. -/
theorem eqLoadPhase_ordered {Row : Type} (m : EQModel Row) (p : Row → Bool)
    (proj : Row → QueryValue) (kf : Row → QueryValue)
    (hpred : ∀ r, m.pred r = .ok (p r)) (hproj : ∀ r, m.proj r = .ok (proj r))
    (hkey : m.orderKey = some (fun r => .ok (kf r))) :
    ∀ (rows : List Row) (s e : Nat) (omap : OrdererMap),
      eqLoadPhase m s e omap (rows.map .ok)
        = eqEmitPhase m.limit s e
            (ordererOutput m.order
              (ordererInsertMany ((rows.filter p).map (fun r => (kf r, proj r))) omap)) := by
  intro rows
  induction rows with
  | nil => intro s e omap; simp [eqLoadPhase, ordererInsertMany]
  | cons r rest ih =>
    intro s e omap
    cases hp : p r
    · simp [eqLoadPhase, hpred, hp, ih s e omap]
    · simp [eqLoadPhase, hpred, hproj, hkey, hp, ih s e (ordererInsert (kf r) (proj r) omap),
            ordererInsertMany]

/-- Orderer insertion grows the buffered-value count by one. -/
theorem ordererSize_insert (key v : QueryValue) :
    ∀ m : OrdererMap, ordererSize (ordererInsert key v m) = ordererSize m + 1 := by
  intro m
  induction m with
  | nil => simp [ordererInsert, ordererSize]
  | cons kv rest ih =>
    obtain ⟨k', vs⟩ := kv
    rw [ordererInsert]
    cases QueryValue.cmp key k' <;> simp [ordererSize] <;> simp [ordererSize] at ih <;> omega

/-- Inserting a batch grows the buffered-value count by the batch size. -/
theorem ordererSize_insertMany :
    ∀ (pairs : List (QueryValue × QueryValue)) (m : OrdererMap),
      ordererSize (ordererInsertMany pairs m) = ordererSize m + pairs.length := by
  intro pairs
  induction pairs with
  | nil => intro m; simp [ordererInsertMany]
  | cons kv rest ih =>
    intro m
    simp [ordererInsertMany] at ih ⊢
    rw [ih (ordererInsert kv.1 kv.2 m), ordererSize_insert]
    omega

/-- The prepared orderer stream contains every buffered value, in either
direction. -/
theorem length_ordererOutput (o : Order) (m : OrdererMap) :
    (ordererOutput o m).length = ordererSize m := by
  cases o with
  | asc => simp [ordererOutput, ordererSize, List.length_flatten, Function.comp_def]
  | desc =>
    simp [ordererOutput, ordererSize, List.length_flatten, Function.comp_def]
    rw [← List.sum_reverse]
    simp [Function.comp_def]

/-- C9: the scalar limit law.  For a pipeline whose sources deliver `rows`
and whose predicate and projection are total, with `total` the number of
predicate-true rows: without ORDER BY, `TOP(n)` emits exactly the first
`min(n, total)` projections in row order and `SKIP(k)` emits exactly the
last `max(0, total − k)` projections in row order; with ORDER BY, the same
counts hold against the sorted stream (`TOP(n)` emits its first `n`
values, `SKIP(k)` everything after its first `k`). -/
theorem scalar_limit_law {Row : Type} (rows : List Row) (p : Row → Bool)
    (proj : Row → QueryValue) (kf : Row → QueryValue) (ord : Order) (n k : Nat) :
    (eqDrain (pureEQ p proj none ord (some (.top n))) (rows.map .ok)
        = (((rows.filter p).map proj).take n).map .ok) ∧
    ((eqDrain (pureEQ p proj none ord (some (.top n))) (rows.map .ok)).length
        = min n (rows.filter p).length) ∧
    (eqDrain (pureEQ p proj none ord (some (.skip k))) (rows.map .ok)
        = (((rows.filter p).map proj).drop k).map .ok) ∧
    ((eqDrain (pureEQ p proj none ord (some (.skip k))) (rows.map .ok)).length
        = (rows.filter p).length - k) ∧
    (eqDrain (pureEQ p proj (some kf) ord (some (.top n))) (rows.map .ok)
        = ((ordererOutput ord
              (ordererInsertMany ((rows.filter p).map (fun r => (kf r, proj r))) [])).take n).map
            .ok) ∧
    ((eqDrain (pureEQ p proj (some kf) ord (some (.top n))) (rows.map .ok)).length
        = min n (rows.filter p).length) ∧
    (eqDrain (pureEQ p proj (some kf) ord (some (.skip k))) (rows.map .ok)
        = ((ordererOutput ord
              (ordererInsertMany ((rows.filter p).map (fun r => (kf r, proj r))) [])).drop k).map
            .ok) ∧
    ((eqDrain (pureEQ p proj (some kf) ord (some (.skip k))) (rows.map .ok)).length
        = (rows.filter p).length - k) := by
  have htop := eqLoadPhase_noorder_top (pureEQ p proj none ord (some (.top n))) p proj n
    (fun _ => rfl) (fun _ => rfl) rfl rfl rows 0 0
  have hskip := eqLoadPhase_noorder_skip (pureEQ p proj none ord (some (.skip k))) p proj k
    (fun _ => rfl) (fun _ => rfl) rfl rfl rows 0 0
  have hordTop := eqLoadPhase_ordered (pureEQ p proj (some kf) ord (some (.top n))) p proj kf
    (fun _ => rfl) (fun _ => rfl) rfl rows 0 0 []
  have hordSkip := eqLoadPhase_ordered (pureEQ p proj (some kf) ord (some (.skip k))) p proj kf
    (fun _ => rfl) (fun _ => rfl) rfl rows 0 0 []
  have hsize : (ordererOutput ord
      (ordererInsertMany ((rows.filter p).map (fun r => (kf r, proj r))) [])).length
        = (rows.filter p).length := by
    rw [length_ordererOutput, ordererSize_insertMany]
    simp [ordererSize]
  refine ⟨?_, ?_, ?_, ?_, ?_, ?_, ?_, ?_⟩
  · simpa [eqDrain] using htop
  · rw [eqDrain, htop]; simp [List.length_take, Nat.min_comm]
  · simpa [eqDrain] using hskip
  · rw [eqDrain, hskip]; simp
  · rw [eqDrain, hordTop]; simp only [pureEQ]; rw [eqEmitPhase_top]; simp
  · rw [eqDrain, hordTop]; simp only [pureEQ]; rw [eqEmitPhase_top]
    simp [List.length_take, hsize, Nat.min_comm]
  · rw [eqDrain, hordSkip]; simp only [pureEQ]; rw [eqEmitPhase_skip]; simp
  · rw [eqDrain, hordSkip]; simp only [pureEQ]; rw [eqEmitPhase_skip]
    simp [hsize]

/-- `leBytes` writes exactly `w` bytes. -/
theorem leBytes_length : ∀ w n : Nat, (leBytes w n).length = w := by
  intro w
  induction w with
  | zero => intro n; rfl
  | succ w ih => intro n; simp [leBytes, ih]

/-- Unfolding of `leVal` on a cons cell. -/
theorem leVal_cons (b : Nat) (rest : List Nat) :
    leVal (b :: rest) = b + 256 * leVal rest := rfl

/-- Decoding the little-endian encoding recovers the value modulo the
width. -/
theorem leVal_leBytes : ∀ w n : Nat, leVal (leBytes w n) = n % 256 ^ w := by
  intro w
  induction w with
  | zero => intro n; simp [leBytes, leVal]; omega
  | succ w ih =>
    intro n
    rw [leBytes, leVal_cons, ih (n / 256), pow_succ']
    exact (Nat.mod_mul).symm

/-- One CRC-32 bit round stays below `2^32`. -/
theorem crc32Round_lt (c : Nat) (h : c < 2 ^ 32) : crc32Round c < 2 ^ 32 := by
  unfold crc32Round
  split
  · exact Nat.xor_lt_two_pow (by omega) (by norm_num)
  · omega

/-- CRC-32 bit rounds stay below `2^32`. -/
theorem crc32Rounds_lt : ∀ (k c : Nat), c < 2 ^ 32 → crc32Rounds k c < 2 ^ 32 := by
  intro k
  induction k with
  | zero => intro c h; simpa [crc32Rounds] using h
  | succ k ih => intro c h; exact ih _ (crc32Round_lt c h)

/-- Absorbing a byte stays below `2^32`. -/
theorem crc32Update_lt (c b : Nat) (h : c < 2 ^ 32) : crc32Update c b < 2 ^ 32 :=
  crc32Rounds_lt 8 _ (Nat.xor_lt_two_pow h (by have := Nat.mod_lt b (y := 256) (by omega); omega))

/-- The CRC-32 of any byte list is a `u32`. -/
theorem crc32_lt (bytes : List Nat) : crc32 bytes < 2 ^ 32 := by
  have hfold : ∀ (l : List Nat) (c : Nat), c < 2 ^ 32 → l.foldl crc32Update c < 2 ^ 32 := by
    intro l
    induction l with
    | nil => intro c h; simpa using h
    | cons b rest ih => intro c h; exact ih _ (crc32Update_lt c b h)
  exact Nat.xor_lt_two_pow (by norm_num) (hfold bytes 0xFFFFFFFF (by norm_num))

/-- Reading `w` little-endian bytes at the cursor of a block whose
payload is `consumed ++ leBytes w n ++ rest` decodes `n % 256^w` and
advances the cursor. -/
theorem getNatLE_spec (o w n : Nat) (p s : List Nat) :
    Block.getNatLE w ⟨o, p.length, p ++ (leBytes w n ++ s)⟩
      = .ok (n % 256 ^ w, ⟨o, p.length + w, p ++ (leBytes w n ++ s)⟩) := by
  have h1 : (p ++ (leBytes w n ++ s)).drop p.length = leBytes w n ++ s :=
    List.drop_left' rfl
  have h2 : (leBytes w n ++ s).take w = leBytes w n := List.take_left' (leBytes_length w n)
  unfold Block.getNatLE
  rw [if_neg (by simp [leBytes_length]), h1, h2, leVal_leBytes]

/-- Copying `chunk.length` bytes at the cursor of a block whose payload is
`consumed ++ chunk ++ rest` yields `chunk` and advances the cursor. -/
theorem copyToBytes_spec (o : Nat) (p chunk s : List Nat) :
    Block.copyToBytes chunk.length ⟨o, p.length, p ++ (chunk ++ s)⟩
      = .ok (chunk, ⟨o, p.length + chunk.length, p ++ (chunk ++ s)⟩) := by
  have h1 : (p ++ (chunk ++ s)).drop p.length = chunk ++ s := List.drop_left' rfl
  have h2 : (chunk ++ s).take chunk.length = chunk := List.take_left' rfl
  unfold Block.copyToBytes
  rw [if_neg (by simp), h1, h2]

/-- A successful put appends its bytes and advances `written`. -/
theorem putRaw_ok (ob : OpenedBlock) (chunk : List Nat)
    (h : ob.written + chunk.length ≤ ob.need) :
    ob.putRaw chunk
      = (.ok (), { ob with written := ob.written + chunk.length,
                           inner := { ob.inner with buf := ob.inner.buf ++ chunk } }) := by
  unfold OpenedBlock.putRaw
  rw [if_neg (by simp; omega)]

/-- `From<u8>` inverts `From<LogOp> for u8` on well-formed tags. -/
theorem logOp_ofByte_toByte (op : LogOp) (h : op.wf) : LogOp.ofByte op.toByte = op := by
  cases op with
  | put => rfl
  | delete => rfl
  | unknown x =>
    obtain ⟨-, h1, h2⟩ := h
    simp [LogOp.ofByte, LogOp.toByte, h1, h2]

/-- `From<u8>` inverts `From<LogContentType> for u8` on well-formed tags. -/
theorem logContentType_ofByte_toByte (ct : LogContentType) (h : ct.wf) :
    LogContentType.ofByte ct.toByte = ct := by
  cases ct with
  | json => rfl
  | unknown x =>
    obtain ⟨-, h1⟩ := h
    simp [LogContentType.ofByte, LogContentType.toByte, h1]

/-- A well-formed op tag is a byte. -/
theorem logOp_toByte_lt (op : LogOp) (h : op.wf) : op.toByte < 256 := by
  cases op with
  | put => norm_num [LogOp.toByte]
  | delete => norm_num [LogOp.toByte]
  | unknown x => exact h.1

/-- A well-formed content-type tag is a byte. -/
theorem logContentType_toByte_lt (ct : LogContentType) (h : ct.wf) : ct.toByte < 256 := by
  cases ct with
  | json => norm_num [LogContentType.toByte]
  | unknown x => exact h.1

/-- `getNatLE_spec` with the cursor and its advance given as separate
equalities, for chaining. -/
theorem getNatLE_at (o read read' w n : Nat) (p s : List Nat)
    (hp : p.length = read) (hr : read + w = read') :
    Block.getNatLE w ⟨o, read, p ++ (leBytes w n ++ s)⟩
      = .ok (n % 256 ^ w, ⟨o, read', p ++ (leBytes w n ++ s)⟩) := by
  subst hp hr
  exact getNatLE_spec o w n p s

/-- `getNatLE_spec` when the encoded field is the last thing in the
payload. -/
theorem getNatLE_at_end (o read read' w n : Nat) (p : List Nat)
    (hp : p.length = read) (hr : read + w = read') :
    Block.getNatLE w ⟨o, read, p ++ leBytes w n⟩
      = .ok (n % 256 ^ w, ⟨o, read', p ++ leBytes w n⟩) := by
  subst hp hr
  have := getNatLE_spec o w n p []
  simpa using this

/-- `copyToBytes_spec` with the cursor and its advance given as separate
equalities. -/
theorem copyToBytes_at (o read read' : Nat) (p chunk s : List Nat)
    (hp : p.length = read) (hr : read + chunk.length = read') :
    Block.copyToBytes chunk.length ⟨o, read, p ++ (chunk ++ s)⟩
      = .ok (chunk, ⟨o, read', p ++ (chunk ++ s)⟩) := by
  subst hp hr
  exact copyToBytes_spec o p chunk s

/-- C6 counterexample: the claim extends the round-trip to unsealed
footers.  The unsealed footer `{sealed: false, first: 123, last: 456,
checksum: 789}` (the input of the source's own
`footer_serialization_when_not_sealed` test) deserializes to `last_lsn = 0`
and `checksum = 0` after serialization, not to itself — the writer emits
zeroes for both fields when unsealed. -/
theorem unsealed_footer_does_not_roundtrip :
    LogSegFooter.tryDeserialize
        (LogSegFooter.serialize ⟨false, 123, 456, 789⟩)
      = .ok ⟨false, 123, 0, 0⟩ ∧
    (⟨false, 123, 456, 789⟩ : LogSegFooter) ≠ ⟨false, 123, 0, 0⟩ := by
  constructor
  · rfl
  · decide

/-- `noteMidpoint` never changes the writer's base offset. -/
theorem BlocksMut.noteMidpoint_offset (b : BlocksMut) (bs : Nat) :
    (b.noteMidpoint bs).offset = b.offset := by
  unfold BlocksMut.noteMidpoint
  split <;> rfl

/-- `noteMidpoint` never changes the buffer. -/
theorem BlocksMut.noteMidpoint_buf (b : BlocksMut) (bs : Nat) :
    (b.noteMidpoint bs).buf = b.buf := by
  unfold BlocksMut.noteMidpoint
  split <;> rfl

/-- C6 amended: the serialize/deserialize round-trip holds for well-formed
headers, records and *sealed* footers; an unsealed footer round-trips to
itself with `last_lsn` and `checksum` replaced by `0` (so it round-trips
exactly when those fields are zero).  The record round-trip goes through
the block layer, as in the source: serialize into a fresh `BlocksMut`
with enough space, read back with `next_block`, deserialize the block. -/
theorem wal_codec_roundtrip :
    (∀ h : LogSegHeader, h.wf →
      LogSegHeader.tryDeserialize h.serialize = .ok h) ∧
    (∀ f : LogSegFooter, f.wf → f.sealed = true →
      LogSegFooter.tryDeserialize f.serialize = .ok f) ∧
    (∀ f : LogSegFooter, f.wf → f.sealed = false →
      LogSegFooter.tryDeserialize f.serialize = .ok ⟨false, f.firstLsn, 0, 0⟩) ∧
    (∀ (r : LogRecord) (limit : Nat), r.wf → r.sizeOnDisk + 8 ≤ limit →
      ∃ (b' : BlocksMut) (block : Block) (rest : Blocks),
        r.serializeInto (BlocksMut.make limit 0 0 []) = .ok b' ∧
        b'.offset = 0 ∧
        b'.freeze.nextBlock = .ok (some (block, rest)) ∧
        LogRecord.tryDeserializeFrom block = .ok r) := by
  refine ⟨?_, ?_, ?_, ?_⟩
  · -- header round-trip
    rintro ⟨v, sid⟩ ⟨hv, hsid⟩
    have hser : LogSegHeader.serialize ⟨v, sid⟩ = leBytes 4 magicNum ++ (leBytes 2 v ++ (leBytes 8 sid ++ List.replicate 114 0)) := by
      unfold LogSegHeader.serialize
      simp [leBytes_length, List.append_assoc]
    have hlen : (leBytes 4 magicNum ++ (leBytes 2 v ++ (leBytes 8 sid ++ List.replicate 114 0))).length = 128 := by simp [leBytes_length]
    have hmag : leVal ((leBytes 4 magicNum ++ (leBytes 2 v ++ (leBytes 8 sid ++ List.replicate 114 0))).take 4) = magicNum := by
      rw [List.take_left' (leBytes_length 4 magicNum), leVal_leBytes]
      norm_num [magicNum]
    have hv2 : ((leBytes 4 magicNum ++ (leBytes 2 v ++ (leBytes 8 sid ++ List.replicate 114 0))).drop 4).take 2 = leBytes 2 v := rfl
    have hs8 : ((leBytes 4 magicNum ++ (leBytes 2 v ++ (leBytes 8 sid ++ List.replicate 114 0))).drop 6).take 8 = leBytes 8 sid := rfl
    unfold LogSegHeader.tryDeserialize
    rw [hser, if_neg (by rw [hlen]; omega), if_neg (by simp only [ne_eq, not_not]; exact hmag), hv2, hs8,
        leVal_leBytes, leVal_leBytes,
        Nat.mod_eq_of_lt (show v < 256 ^ 2 from by norm_num at hv ⊢; omega),
        Nat.mod_eq_of_lt (show sid < 256 ^ 8 from by norm_num at hsid ⊢; omega)]
  · -- sealed footer round-trip
    rintro ⟨sealed, first, last, sum⟩ ⟨hf, hl, hc⟩ hs
    subst hs
    have hser : LogSegFooter.serialize ⟨true, first, last, sum⟩ = leBytes 4 magicNum ++ ([1] ++ (leBytes 8 first ++ (leBytes 8 last ++ (List.replicate 103 0 ++ leBytes 4 sum)))) := by
      unfold LogSegFooter.serialize
      simp [List.append_assoc]
    have hlen : (leBytes 4 magicNum ++ ([1] ++ (leBytes 8 first ++ (leBytes 8 last ++ (List.replicate 103 0 ++ leBytes 4 sum))))).length = 128 := by simp [leBytes_length]
    have hmag : leVal ((leBytes 4 magicNum ++ ([1] ++ (leBytes 8 first ++ (leBytes 8 last ++ (List.replicate 103 0 ++ leBytes 4 sum))))).take 4) = magicNum := by
      rw [List.take_left' (leBytes_length 4 magicNum), leVal_leBytes]
      norm_num [magicNum]
    have hgd : (leBytes 4 magicNum ++ ([1] ++ (leBytes 8 first ++ (leBytes 8 last ++ (List.replicate 103 0 ++ leBytes 4 sum))))).getD 4 0 = 1 := rfl
    have hf8 : ((leBytes 4 magicNum ++ ([1] ++ (leBytes 8 first ++ (leBytes 8 last ++ (List.replicate 103 0 ++ leBytes 4 sum))))).drop 5).take 8 = leBytes 8 first := rfl
    have hl8 : ((leBytes 4 magicNum ++ ([1] ++ (leBytes 8 first ++ (leBytes 8 last ++ (List.replicate 103 0 ++ leBytes 4 sum))))).drop 13).take 8 = leBytes 8 last := rfl
    have hc4 : ((leBytes 4 magicNum ++ ([1] ++ (leBytes 8 first ++ (leBytes 8 last ++ (List.replicate 103 0 ++ leBytes 4 sum))))).drop 124).take 4 = leBytes 4 sum := rfl
    unfold LogSegFooter.tryDeserialize
    rw [hser, if_neg (by rw [hlen]; omega), if_neg (by simp only [ne_eq, not_not]; exact hmag),
        if_neg (by rw [hgd]; omega), if_pos (by rw [hgd]), hf8, hl8, hc4,
        leVal_leBytes, leVal_leBytes, leVal_leBytes,
        Nat.mod_eq_of_lt (show first < 256 ^ 8 from by norm_num at hf ⊢; omega),
        Nat.mod_eq_of_lt (show last < 256 ^ 8 from by norm_num at hl ⊢; omega),
        Nat.mod_eq_of_lt (show sum < 256 ^ 4 from by norm_num at hc ⊢; omega)]
  · -- unsealed footer: last_lsn and checksum zeroed
    rintro ⟨sealed, first, last, sum⟩ ⟨hf, -, -⟩ hs
    subst hs
    have hser : LogSegFooter.serialize ⟨false, first, last, sum⟩ = leBytes 4 magicNum ++ ([0] ++ (leBytes 8 first ++ (leBytes 8 0 ++ (List.replicate 103 0 ++ leBytes 4 0)))) := by
      unfold LogSegFooter.serialize
      simp [List.append_assoc]
    have hlen : (leBytes 4 magicNum ++ ([0] ++ (leBytes 8 first ++ (leBytes 8 0 ++ (List.replicate 103 0 ++ leBytes 4 0))))).length = 128 := by simp [leBytes_length]
    have hmag : leVal ((leBytes 4 magicNum ++ ([0] ++ (leBytes 8 first ++ (leBytes 8 0 ++ (List.replicate 103 0 ++ leBytes 4 0))))).take 4) = magicNum := by
      rw [List.take_left' (leBytes_length 4 magicNum), leVal_leBytes]
      norm_num [magicNum]
    have hgd : (leBytes 4 magicNum ++ ([0] ++ (leBytes 8 first ++ (leBytes 8 0 ++ (List.replicate 103 0 ++ leBytes 4 0))))).getD 4 0 = 0 := rfl
    have hf8 : ((leBytes 4 magicNum ++ ([0] ++ (leBytes 8 first ++ (leBytes 8 0 ++ (List.replicate 103 0 ++ leBytes 4 0))))).drop 5).take 8 = leBytes 8 first := rfl
    unfold LogSegFooter.tryDeserialize
    rw [hser, if_neg (by rw [hlen]; omega), if_neg (by simp only [ne_eq, not_not]; exact hmag),
        if_pos (by rw [hgd]), hf8, leVal_leBytes,
        Nat.mod_eq_of_lt (show first < 256 ^ 8 from by norm_num at hf ⊢; omega)]
  · -- record round-trip through the block layer
    rintro r limit ⟨hlsn, hop, hct, hdlen, -⟩ hl
    have hopb : r.op.toByte < 256 := logOp_toByte_lt r.op hop
    have hctb : r.contentType.toByte < 256 := logContentType_toByte_lt r.contentType hct
    have hneed : r.sizeOnDisk = 16 + r.data.length := by
      unfold LogRecord.sizeOnDisk; omega
    set pay : List Nat := leBytes 8 r.lsn ++
      (leBytes 1 r.op.toByte ++ (leBytes 1 r.contentType.toByte ++
        (leBytes 2 r.data.length ++ r.data))) with hpay
    set crcv : Nat := crc32 pay with hcrcv
    set full : List Nat := leBytes 8 r.lsn ++
      (leBytes 1 r.op.toByte ++ (leBytes 1 r.contentType.toByte ++
        (leBytes 2 r.data.length ++ (r.data ++ leBytes 4 crcv)))) with hfull
    have hpaylen : pay.length = 12 + r.data.length := by
      simp [hpay, leBytes_length]; omega
    have hsplit : full = pay ++ leBytes 4 crcv := by
      simp [hfull, hpay, List.append_assoc]
    have hfulllen : full.length = r.sizeOnDisk := by
      rw [hsplit]
      simp [hpaylen, leBytes_length, hneed]
      omega
    have hopen : (BlocksMut.make limit 0 0 []).openBlock r.sizeOnDisk
        = .ok ⟨r.sizeOnDisk, 0, 4, 0,
            ⟨limit, 0, leBytes 4 r.sizeOnDisk, limit / 10, 0, []⟩⟩ := by
      unfold BlocksMut.openBlock BlocksMut.make BlocksMut.availableSpace
      rw [if_neg (by simp; omega)]
      simp [leBytes_length]
    have h1 : OpenedBlock.putU64le
        ⟨r.sizeOnDisk, 0, 4, 0, ⟨limit, 0, leBytes 4 r.sizeOnDisk, limit / 10, 0, []⟩⟩
        r.lsn
        = (.ok (), ⟨r.sizeOnDisk, 0, 4, 8,
            ⟨limit, 0, leBytes 4 r.sizeOnDisk ++ leBytes 8 r.lsn, limit / 10, 0, []⟩⟩) := by
      rw [OpenedBlock.putU64le, putRaw_ok _ _ (by simp [leBytes_length]; omega)]
      simp [leBytes_length]
    have h2 : OpenedBlock.putU8
        ⟨r.sizeOnDisk, 0, 4, 8,
          ⟨limit, 0, leBytes 4 r.sizeOnDisk ++ leBytes 8 r.lsn, limit / 10, 0, []⟩⟩
        r.op.toByte
        = (.ok (), ⟨r.sizeOnDisk, 0, 4, 9,
            ⟨limit, 0,
             leBytes 4 r.sizeOnDisk ++ (leBytes 8 r.lsn ++ leBytes 1 r.op.toByte),
             limit / 10, 0, []⟩⟩) := by
      rw [OpenedBlock.putU8, putRaw_ok _ _ (by simp; omega)]
      simp [leBytes, List.append_assoc]
    have h3 : OpenedBlock.putU8
        ⟨r.sizeOnDisk, 0, 4, 9,
          ⟨limit, 0, leBytes 4 r.sizeOnDisk ++ (leBytes 8 r.lsn ++ leBytes 1 r.op.toByte),
           limit / 10, 0, []⟩⟩
        r.contentType.toByte
        = (.ok (), ⟨r.sizeOnDisk, 0, 4, 10,
            ⟨limit, 0,
             leBytes 4 r.sizeOnDisk ++ (leBytes 8 r.lsn ++ (leBytes 1 r.op.toByte ++
               leBytes 1 r.contentType.toByte)),
             limit / 10, 0, []⟩⟩) := by
      rw [OpenedBlock.putU8, putRaw_ok _ _ (by simp; omega)]
      simp [leBytes, List.append_assoc]
    have h4 : OpenedBlock.putU16le
        ⟨r.sizeOnDisk, 0, 4, 10,
          ⟨limit, 0,
           leBytes 4 r.sizeOnDisk ++ (leBytes 8 r.lsn ++ (leBytes 1 r.op.toByte ++
             leBytes 1 r.contentType.toByte)),
           limit / 10, 0, []⟩⟩
        r.data.length
        = (.ok (), ⟨r.sizeOnDisk, 0, 4, 12,
            ⟨limit, 0,
             leBytes 4 r.sizeOnDisk ++ (leBytes 8 r.lsn ++ (leBytes 1 r.op.toByte ++
               (leBytes 1 r.contentType.toByte ++ leBytes 2 r.data.length))),
             limit / 10, 0, []⟩⟩) := by
      rw [OpenedBlock.putU16le, putRaw_ok _ _ (by simp [leBytes_length]; omega)]
      simp [leBytes_length, leBytes, List.append_assoc]
    have h5 : OpenedBlock.putBytes
        ⟨r.sizeOnDisk, 0, 4, 12,
          ⟨limit, 0,
           leBytes 4 r.sizeOnDisk ++ (leBytes 8 r.lsn ++ (leBytes 1 r.op.toByte ++
             (leBytes 1 r.contentType.toByte ++ leBytes 2 r.data.length))),
           limit / 10, 0, []⟩⟩
        r.data
        = (.ok (), ⟨r.sizeOnDisk, 0, 4, 12 + r.data.length,
            ⟨limit, 0, leBytes 4 r.sizeOnDisk ++ pay, limit / 10, 0, []⟩⟩) := by
      rw [OpenedBlock.putBytes, putRaw_ok _ _ (by simp; omega)]
      simp [hpay, List.append_assoc]
    have hwb : OpenedBlock.writtenBytes
        ⟨r.sizeOnDisk, 0, 4, 12 + r.data.length,
          ⟨limit, 0, leBytes 4 r.sizeOnDisk ++ pay, limit / 10, 0, []⟩⟩ = pay := by
      unfold OpenedBlock.writtenBytes
      rw [show (⟨r.sizeOnDisk, 0, 4, 12 + r.data.length,
            ⟨limit, 0, leBytes 4 r.sizeOnDisk ++ pay, limit / 10, 0, []⟩⟩ :
              OpenedBlock).inner.buf = leBytes 4 r.sizeOnDisk ++ pay from rfl]
      rw [show (⟨r.sizeOnDisk, 0, 4, 12 + r.data.length,
            ⟨limit, 0, leBytes 4 r.sizeOnDisk ++ pay, limit / 10, 0, []⟩⟩ :
              OpenedBlock).bufStartOffset = 4 from rfl]
      rw [show (⟨r.sizeOnDisk, 0, 4, 12 + r.data.length,
            ⟨limit, 0, leBytes 4 r.sizeOnDisk ++ pay, limit / 10, 0, []⟩⟩ :
              OpenedBlock).written = 12 + r.data.length from rfl]
      rw [List.drop_left' (leBytes_length 4 r.sizeOnDisk)]
      exact List.take_of_length_le (by omega)
    have h6 : OpenedBlock.putU32le
        ⟨r.sizeOnDisk, 0, 4, 12 + r.data.length,
          ⟨limit, 0, leBytes 4 r.sizeOnDisk ++ pay, limit / 10, 0, []⟩⟩
        crcv
        = (.ok (), ⟨r.sizeOnDisk, 0, 4, 12 + r.data.length + 4,
            ⟨limit, 0, leBytes 4 r.sizeOnDisk ++ full, limit / 10, 0, []⟩⟩) := by
      rw [OpenedBlock.putU32le, putRaw_ok _ _ (by simp [leBytes_length]; omega)]
      simp [hsplit, List.append_assoc, leBytes_length]
    have hser : r.serializeInto (BlocksMut.make limit 0 0 [])
        = .ok (BlocksMut.noteMidpoint
            ⟨limit, 0, leBytes 4 r.sizeOnDisk ++ (full ++ leBytes 4 r.sizeOnDisk), limit / 10, 0, []⟩ 0) := by
      unfold LogRecord.serializeInto
      rw [hopen]
      simp only [putStep, h1, h2, h3, h4, h5, hwb, ← hcrcv, h6]
      unfold OpenedBlock.finalize
      rw [if_neg (by simp; omega)]
      simp [List.append_assoc]
    have hbuflen : (leBytes 4 r.sizeOnDisk ++ (full ++ leBytes 4 r.sizeOnDisk)).length = r.sizeOnDisk + 8 := by
      simp [leBytes_length, hfulllen]
      omega
    have ht4 : (leBytes 4 r.sizeOnDisk ++ (full ++ leBytes 4 r.sizeOnDisk)).take 4 = leBytes 4 r.sizeOnDisk :=
      List.take_left' (leBytes_length 4 r.sizeOnDisk)
    have hd4 : (leBytes 4 r.sizeOnDisk ++ (full ++ leBytes 4 r.sizeOnDisk)).drop 4 = full ++ leBytes 4 r.sizeOnDisk :=
      List.drop_left' (leBytes_length 4 r.sizeOnDisk)
    have hmod4 : r.sizeOnDisk % 256 ^ 4 = r.sizeOnDisk :=
      Nat.mod_eq_of_lt (by norm_num at hdlen ⊢; omega)
    have hdfull : (full ++ leBytes 4 r.sizeOnDisk).drop r.sizeOnDisk
        = leBytes 4 r.sizeOnDisk := by
      rw [← hfulllen]
      exact List.drop_left' rfl
    have htfull : (full ++ leBytes 4 r.sizeOnDisk).take r.sizeOnDisk = full :=
      List.take_left' hfulllen
    have hnext : ∃ rest : Blocks,
        Blocks.nextBlock ⟨0, 0, leBytes 4 r.sizeOnDisk ++ (full ++ leBytes 4 r.sizeOnDisk)⟩ = .ok (some (⟨0, 0, full⟩, rest)) := by
      simp only [Blocks.nextBlock]
      rw [ht4, hd4, leVal_leBytes, hmod4, hdfull,
          List.take_of_length_le (le_of_eq (leBytes_length 4 r.sizeOnDisk)),
          leVal_leBytes, hmod4, htfull]
      rw [if_neg (by rw [hbuflen]; omega)]
      rw [if_neg (by simp [leBytes_length, hfulllen])]
      rw [if_neg (by simp)]
      exact ⟨_, rfl⟩
    obtain ⟨rest, hnext⟩ := hnext
    have e8 : r.lsn % 256 ^ 8 = r.lsn := Nat.mod_eq_of_lt (by norm_num at hlsn ⊢; omega)
    have eop : r.op.toByte % 256 ^ 1 = r.op.toByte := Nat.mod_eq_of_lt (by omega)
    have ect : r.contentType.toByte % 256 ^ 1 = r.contentType.toByte :=
      Nat.mod_eq_of_lt (by omega)
    have e2 : r.data.length % 256 ^ 2 = r.data.length :=
      Nat.mod_eq_of_lt (by norm_num at hdlen ⊢; omega)
    have e4 : crcv % 256 ^ 4 = crcv := by
      have := crc32_lt pay
      rw [← hcrcv] at this
      exact Nat.mod_eq_of_lt (by norm_num at this ⊢; omega)
    have g1 : Block.getNatLE 8 ⟨0, 0, full⟩ = .ok (r.lsn, ⟨0, 8, full⟩) := by
      have h := getNatLE_at 0 0 8 8 r.lsn []
        (leBytes 1 r.op.toByte ++ (leBytes 1 r.contentType.toByte ++
          (leBytes 2 r.data.length ++ (r.data ++ leBytes 4 crcv)))) rfl rfl
      rw [e8] at h
      exact h
    have g2 : Block.getNatLE 1 ⟨0, 8, full⟩ = .ok (r.op.toByte, ⟨0, 9, full⟩) := by
      have h := getNatLE_at 0 8 9 1 r.op.toByte (leBytes 8 r.lsn)
        (leBytes 1 r.contentType.toByte ++
          (leBytes 2 r.data.length ++ (r.data ++ leBytes 4 crcv)))
        (leBytes_length 8 r.lsn) rfl
      rw [eop] at h
      exact h
    have g3 : Block.getNatLE 1 ⟨0, 9, full⟩
        = .ok (r.contentType.toByte, ⟨0, 10, full⟩) := by
      have h := getNatLE_at 0 9 10 1 r.contentType.toByte
        (leBytes 8 r.lsn ++ leBytes 1 r.op.toByte)
        (leBytes 2 r.data.length ++ (r.data ++ leBytes 4 crcv))
        (by simp [leBytes_length]) rfl
      rw [ect,
          show (leBytes 8 r.lsn ++ leBytes 1 r.op.toByte) ++
            (leBytes 1 r.contentType.toByte ++
              (leBytes 2 r.data.length ++ (r.data ++ leBytes 4 crcv))) = full from by
            rw [hfull]; simp [List.append_assoc]] at h
      exact h
    have g4 : Block.getNatLE 2 ⟨0, 10, full⟩ = .ok (r.data.length, ⟨0, 12, full⟩) := by
      have h := getNatLE_at 0 10 12 2 r.data.length
        (leBytes 8 r.lsn ++ (leBytes 1 r.op.toByte ++ leBytes 1 r.contentType.toByte))
        (r.data ++ leBytes 4 crcv)
        (by simp [leBytes_length]) rfl
      rw [e2,
          show (leBytes 8 r.lsn ++ (leBytes 1 r.op.toByte ++
              leBytes 1 r.contentType.toByte)) ++
            (leBytes 2 r.data.length ++ (r.data ++ leBytes 4 crcv)) = full from by
            rw [hfull]; simp [List.append_assoc]] at h
      exact h
    have g5 : Block.copyToBytes r.data.length ⟨0, 12, full⟩
        = .ok (r.data, ⟨0, 12 + r.data.length, full⟩) := by
      have h := copyToBytes_at 0 12 (12 + r.data.length)
        (leBytes 8 r.lsn ++ (leBytes 1 r.op.toByte ++
          (leBytes 1 r.contentType.toByte ++ leBytes 2 r.data.length)))
        r.data (leBytes 4 crcv)
        (by simp [leBytes_length]) rfl
      rw [show (leBytes 8 r.lsn ++ (leBytes 1 r.op.toByte ++
            (leBytes 1 r.contentType.toByte ++ leBytes 2 r.data.length))) ++
            (r.data ++ leBytes 4 crcv) = full from by
          rw [hfull]; simp [List.append_assoc]] at h
      exact h
    have gcontent : Block.readContent ⟨0, 12 + r.data.length, full⟩ = pay := by
      unfold Block.readContent
      rw [show (⟨0, 12 + r.data.length, full⟩ : Block).data = full from rfl,
          show (⟨0, 12 + r.data.length, full⟩ : Block).read = 12 + r.data.length from rfl,
          hsplit, show (12 + r.data.length : Nat) = pay.length from hpaylen.symm]
      exact List.take_left' rfl
    have g6 : Block.getNatLE 4 ⟨0, 12 + r.data.length, full⟩
        = .ok (crcv, ⟨0, 12 + r.data.length + 4, full⟩) := by
      have h := getNatLE_at_end 0 (12 + r.data.length) (12 + r.data.length + 4) 4 crcv
        pay hpaylen rfl
      rw [e4, ← hsplit] at h
      exact h
    have hdes : LogRecord.tryDeserializeFrom ⟨0, 0, full⟩ = .ok r := by
      unfold LogRecord.tryDeserializeFrom
      rw [if_neg (by simp [Block.remainingLen, hfulllen]; omega)]
      simp only [g1, getStep, g2, g3, g4, g5, gcontent, g6]
      rw [if_neg (by simp [hcrcv]), logOp_ofByte_toByte r.op hop,
          logContentType_ofByte_toByte r.contentType hct]
    refine ⟨BlocksMut.noteMidpoint
        ⟨limit, 0, leBytes 4 r.sizeOnDisk ++ (full ++ leBytes 4 r.sizeOnDisk), limit / 10, 0, []⟩ 0, ⟨0, 0, full⟩, rest, hser, ?_, ?_, hdes⟩
    · rw [BlocksMut.noteMidpoint_offset]
    · rw [show (BlocksMut.noteMidpoint
            ⟨limit, 0, leBytes 4 r.sizeOnDisk ++ (full ++ leBytes 4 r.sizeOnDisk), limit / 10, 0, []⟩ 0).freeze
          = ⟨0, 0, leBytes 4 r.sizeOnDisk ++ (full ++ leBytes 4 r.sizeOnDisk)⟩ from by
        unfold BlocksMut.freeze
        rw [BlocksMut.noteMidpoint_offset, BlocksMut.noteMidpoint_buf]]
      exact hnext

/-- Witness for `wal_codec_roundtrip`: a concrete header, sealed footer,
unsealed footer and record round-trip exactly as the theorem states. -/
theorem wal_codec_roundtrip_witness :
    LogSegHeader.tryDeserialize (LogSegHeader.serialize ⟨1, 7⟩) = .ok ⟨1, 7⟩ ∧
    LogSegFooter.tryDeserialize (LogSegFooter.serialize ⟨true, 5, 9, 77⟩)
      = .ok ⟨true, 5, 9, 77⟩ ∧
    LogSegFooter.tryDeserialize (LogSegFooter.serialize ⟨false, 5, 9, 77⟩)
      = .ok ⟨false, 5, 0, 0⟩ ∧
    ∃ (b' : BlocksMut) (block : Block) (rest : Blocks),
      LogRecord.serializeInto ⟨42, .put, .unknown 123, [1, 2, 3]⟩
        (BlocksMut.make 100 0 0 []) = .ok b' ∧
      b'.offset = 0 ∧
      b'.freeze.nextBlock = .ok (some (block, rest)) ∧
      LogRecord.tryDeserializeFrom block = .ok ⟨42, .put, .unknown 123, [1, 2, 3]⟩ :=
  ⟨wal_codec_roundtrip.1 ⟨1, 7⟩ ⟨by decide, by decide⟩,
   wal_codec_roundtrip.2.1 ⟨true, 5, 9, 77⟩ ⟨by decide, by decide, by decide⟩ rfl,
   wal_codec_roundtrip.2.2.1 ⟨false, 5, 9, 77⟩ ⟨by decide, by decide, by decide⟩ rfl,
   wal_codec_roundtrip.2.2.2 ⟨42, .put, .unknown 123, [1, 2, 3]⟩ 100
     ⟨by decide, trivial, ⟨by decide, by decide⟩, by decide, by decide⟩ (by decide)⟩

/-- Key membership after a `recInsert`: the inserted key is present, and
every other key survives. -/
theorem mem_recKeys_recInsert (k k' : String) (v : QueryValue)
    (l : List (String × QueryValue)) :
    k' ∈ recKeys (recInsert k v l) ↔ k' = k ∨ k' ∈ recKeys l := by
  induction l with
  | nil => simp [recInsert, recKeys]
  | cons p rest ih =>
    obtain ⟨k0, v0⟩ := p
    unfold recInsert
    cases hc : compare k k0 with
    | lt => simp [recKeys]
    | eq =>
      have hk : k = k0 := Batteries.BEqCmp.cmp_iff_eq.1 hc
      subst hk
      simp [recKeys]
    | gt =>
      simp only [recKeys, List.map_cons, List.mem_cons] at ih ⊢
      rw [ih]
      tauto

/-- Key membership of the record built by `Event::project`'s field fold:
exactly the expected names (plus whatever the accumulator already has). -/
theorem mem_recKeys_project_foldl (px : ExtParse) (ev : Event)
    (rec : List (String × QType)) (acc : List (String × QueryValue))
    (name : String) :
    name ∈ recKeys (rec.foldl
        (fun acc nt => recInsert nt.1 (projectField px ev nt.1 nt.2) acc) acc) ↔
      name ∈ rec.map Prod.fst ∨ name ∈ recKeys acc := by
  induction rec generalizing acc with
  | nil => simp
  | cons nt rest ih =>
    simp only [List.foldl_cons, List.map_cons, List.mem_cons]
    rw [ih, mem_recKeys_recInsert]
    tauto

/-- Key membership of the record built by the `Type::Record` shaping loop:
every JSON object field's name ends up in the result, expected or not. -/
theorem mem_recKeys_buildFTEObj (px : ExtParse) (tmap : List (String × QType))
    (acc : List (String × QueryValue)) (jfields : List (String × Json))
    (name : String) :
    name ∈ recKeys (buildFTEObj px tmap acc jfields) ↔
      name ∈ jfields.map Prod.fst ∨ name ∈ recKeys acc := by
  induction jfields generalizing acc with
  | nil => simp [buildFTEObj]
  | cons f rest ih =>
    obtain ⟨n, v⟩ := f
    simp only [buildFTEObj, List.map_cons, List.mem_cons]
    rw [ih, mem_recKeys_recInsert]
    tauto

/-- C7 counterexample: projecting the event whose JSON payload is
`{ "a": 1, "b": 2 }` against the expected record type `{ data: { a: Number } }`
yields a `data` record that still contains the field `b`, although `b` is
absent from the expected record type (`assocFind "b" = none` is the code's
own lookup): the shaping loop converts unexpected fields with the generic
`QueryValue::from` and inserts them instead of dropping them. -/
theorem unexpected_json_field_not_dropped :
    Event.project dataParse dataEvent (.record [("data", dataExpect)])
      = .record [("data", .record [("a", .num 1), ("b", .num 2)])] ∧
    assocFind "b" [("a", QType.number)] = none :=
  ⟨rfl, rfl⟩

/-- C7 amended: the *top level* of `Event::project` is shaped by the
expectation — the projected record's keys are exactly the expected field
names — but inside a nested `Record` expectation the shaping loop of
`build_from_type_expectation` iterates the *JSON object's* fields and
inserts every one of them, so JSON fields absent from the expected record
type are retained (converted with the generic `QueryValue::from`), not
dropped. -/
theorem project_shapes_top_level_but_keeps_nested_fields :
    (∀ (px : ExtParse) (ev : Event) (rec : List (String × QType)),
      ∃ fields, Event.project px ev (.record rec) = .record fields ∧
        ∀ name, name ∈ recKeys fields ↔ name ∈ rec.map Prod.fst) ∧
    (∀ (px : ExtParse) (tmap : List (String × QType))
        (jfields : List (String × Json)) (name : String),
      name ∈ jfields.map Prod.fst →
        name ∈ recKeys (buildFTEObj px tmap [] jfields)) := by
  constructor
  · intro px ev rec
    refine ⟨_, rfl, fun name => ?_⟩
    rw [mem_recKeys_project_foldl]
    simp [recKeys]
  · intro px tmap jfields name h
    rw [mem_recKeys_buildFTEObj]
    exact Or.inl h

/-- Witness for `project_shapes_top_level_but_keeps_nested_fields` at the
concrete C7 scenario: the projected record's only key is `data`, and the
unexpected JSON field `b` is kept by the nested shaping loop. -/
theorem project_shapes_top_level_but_keeps_nested_fields_witness :
    (∃ fields,
      Event.project dataParse dataEvent (.record [("data", dataExpect)])
          = .record fields ∧
        ∀ name, name ∈ recKeys fields ↔ name ∈ ["data"]) ∧
    "b" ∈ recKeys (buildFTEObj dataParse [("a", QType.number)] []
      [("a", Json.num 1), ("b", Json.num 2)]) :=
  ⟨by
    have h := project_shapes_top_level_but_keeps_nested_fields.1
      dataParse dataEvent [("data", dataExpect)]
    simpa using h,
   project_shapes_top_level_but_keeps_nested_fields.2
    dataParse [("a", QType.number)] [("a", Json.num 1), ("b", Json.num 2)] "b"
    (by simp)⟩

end Vigil

